import Mathlib

/-!
Verification of the Aurelia storage core (NAND chip, Flash Translation
Layer, NVMe-style storage controller) against its natural-language
specification.

The definitions below are a shallow embedding of the C++ sources:

* `src/Storage/Nand/NandDefs.hpp`, `src/Storage/Nand/NandChip.cpp`
* `src/Storage/FTL/FtlDefs.hpp`, `src/Storage/FTL/Ftl.hpp`, `src/Storage/FTL/Ftl.cpp`
* the storage controller implementation (`StorageController.cpp`,
  `StorageDefs.hpp`)

Machine integers are modelled as `Nat` with explicit `% 2 ^ w` where
wrap-around matters.  Byte arrays and spans (`std::array<Byte, N>`,
`std::span<Byte>`, `std::vector<Byte>`) are modelled as a size together
with the little-endian packing of their bytes into one `Nat` (byte `i` of
the buffer is `val / 2 ^ (8 * i) % 256`); the per-byte loops of the C++
become bitwise operations on the packed value, and the lemmas
`checkAnd_iff_bytes` and `progAnd_byte` below prove that those operations
have exactly the per-byte semantics of the source loops.  Mutation is
modelled by explicit state passing.  The C++ recursion
`Write → AllocateNewActiveBlock → GarbageCollect → Write` is made
structurally terminating with a fuel parameter; fuel is consumed only when
one of the three functions calls another, so any fuel ≥ 16 behaves exactly
like the unbounded C++ recursion (whose nesting depth is at most 5).
-/

set_option exponentiation.threshold 40000

namespace Aurelia

/-- `PageDataSize` from `NandDefs.hpp`: payload bytes of a page. -/
def PageDataSize : Nat := 4096

/-- `OobSize` from `NandDefs.hpp`: spare (out-of-band) bytes per page. -/
def OobSize : Nat := 64

/-- `PagesPerBlock` from `NandDefs.hpp`. -/
def PagesPerBlock : Nat := 64

/-- `FtlMagic` from `FtlDefs.hpp` (`Core::Word`, i.e. 64-bit). -/
def FtlMagic : Nat := 0xDEADBEEF

/-- `std::numeric_limits<std::size_t>::max()`, the sentinel used by the FTL
for "no active block". -/
def usizeMax : Nat := 2 ^ 64 - 1

/-- Byte `i` of a little-endian packed region value. -/
def byteAt (v i : Nat) : Nat := v >>> (8 * i) &&& 255

/-- A byte buffer (`std::span`/`std::vector`/`std::array` of `Byte`):
`size` bytes, packed little-endian into `val` (byte `i` is
`val / 2 ^ (8 * i) % 256`).  Buffers built by the functions of this file
always satisfy `val < 2 ^ (8 * size)`. -/
structure ByteBuf where
  size : Nat
  val : Nat
deriving DecidableEq, Repr

/-- Byte `i` of a buffer (`buf[i]`). -/
def ByteBuf.get (b : ByteBuf) (i : Nat) : Nat := byteAt b.val i

/-- `span.empty()`. -/
def ByteBuf.isEmpty (b : ByteBuf) : Bool := b.size == 0

/-- The packed value whose `n` bytes all equal `b % 256`
(`(2 ^ (8 * n) - 1) / 255` is the number with `n` bytes all `0x01`). -/
def allBytes (n b : Nat) : Nat := (2 ^ (8 * n) - 1) / 255 * (b % 256)

/-- A buffer of `n` bytes all equal to `b` (`std::vector<Byte>(n, b)` or
`std::fill`). -/
def replicateBuf (n b : Nat) : ByteBuf := ⟨n, allBytes n b⟩

/-- A zero-initialised buffer of `n` bytes (`std::vector<Byte>(n)`). -/
def zeroBuf (n : Nat) : ByteBuf := ⟨n, 0⟩

/-- `NandStatus` from `NandDefs.hpp`. -/
inductive NandStatus where
  | Success
  | WriteError
  | InvalidAddress
deriving DecidableEq, Repr

/-- `struct Page`: a 4096-byte data region and a 64-byte OOB region,
stored as packed values (`data < 2 ^ (8 * PageDataSize)`,
`oob < 2 ^ (8 * OobSize)` by construction). -/
structure NandPage where
  data : Nat
  oob : Nat
deriving DecidableEq, Repr

/-- A freshly constructed page: every byte `0xFF` (erased state). -/
def freshPage : NandPage :=
  { data := 2 ^ (8 * PageDataSize) - 1, oob := 2 ^ (8 * OobSize) - 1 }

instance : Inhabited NandPage := ⟨freshPage⟩

/-- `struct Block`: `PagesPerBlock` pages plus the factory-bad flag and the
erase counter. -/
structure NandBlock where
  pages : List NandPage
  isBad : Bool
  eraseCount : Nat
deriving DecidableEq, Repr

/-- A freshly constructed block: all pages erased, not bad, erase count 0. -/
def freshBlock : NandBlock :=
  { pages := List.replicate PagesPerBlock freshPage, isBad := false, eraseCount := 0 }

instance : Inhabited NandBlock := ⟨freshBlock⟩

/-- `class NandChip`: an ordered sequence of blocks. -/
structure NandChip where
  blocks : List NandBlock
deriving DecidableEq, Repr

/-- `NandChip::NandChip(numBlocks)`. -/
def NandChip.new (numBlocks : Nat) : NandChip :=
  { blocks := List.replicate numBlocks freshBlock }

/-- The page at `(blockIdx, pageIdx)` (callers guard the bounds, as the
C++ indexing does). -/
def NandChip.page (c : NandChip) (blockIdx pageIdx : Nat) : NandPage :=
  ((c.blocks.getD blockIdx default).pages.getD pageIdx default)

/-- Replace the page at `(blockIdx, pageIdx)`. -/
def NandChip.setPage (c : NandChip) (blockIdx pageIdx : Nat) (pg : NandPage) : NandChip :=
  { blocks := c.blocks.set blockIdx
      (let b := c.blocks.getD blockIdx default
       { b with pages := b.pages.set pageIdx pg }) }

/-- The physics-verification loop of `NandChip::ProgramPage` over one
region:
`for (i = 0; i < regionSize && i < in.size(); ++i) if ((old[i] & in[i]) != in[i]) return WriteError`.
On packed values the loop over the `m = min regionSize in.size` covered
bytes is the single test `(old & in) == in` on the low `8 * m` bits;
`checkAnd_iff_bytes` proves this equal to the per-byte condition. -/
def checkAnd (regionSize : Nat) (old : Nat) (bufIn : ByteBuf) : Bool :=
  let m := min regionSize bufIn.size
  ((old % 2 ^ (8 * m)) &&& (bufIn.val % 2 ^ (8 * m))) == bufIn.val % 2 ^ (8 * m)

/-- The programming loop of `NandChip::ProgramPage` over one region:
`stored[i] &= in[i]` for every covered byte `i < min regionSize in.size`,
bytes past the input buffer unchanged.  `progAnd_byte` proves the per-byte
semantics. -/
def progAnd (regionSize : Nat) (old : Nat) (bufIn : ByteBuf) : Nat :=
  let m := min regionSize bufIn.size
  ((old % 2 ^ (8 * m)) &&& (bufIn.val % 2 ^ (8 * m))) ||| ((old >>> (8 * m)) <<< (8 * m))

/-- `std::copy(src.begin(), src.end(), dst.begin())` for a source region
of `n` packed bytes: the low `n` bytes of the destination are replaced by
the source, the rest are kept. -/
def copyBytes (src n dst : Nat) : Nat :=
  (src % 2 ^ (8 * n)) ||| ((dst >>> (8 * n)) <<< (8 * n))

/-- `NandChip::ReadPage`.  `buffer` and `oobBuffer` are the caller's
buffers; the returned ones are their contents after the call.  An empty
`oobBuffer` means OOB was not requested (the C++ default `{}` span).
The data region is copied into `buffer` *before* the OOB buffer size is
checked, exactly as in the source. -/
def NandChip.readPage (c : NandChip) (blockIdx pageIdx : Nat)
    (buffer oobBuffer : ByteBuf) : NandStatus × ByteBuf × ByteBuf :=
  if blockIdx ≥ c.blocks.length ∨ pageIdx ≥ PagesPerBlock then
    (NandStatus.InvalidAddress, buffer, oobBuffer)
  else if buffer.size < PageDataSize then
    (NandStatus.InvalidAddress, buffer, oobBuffer)
  else
    let pg := c.page blockIdx pageIdx
    let buffer1 : ByteBuf := ⟨buffer.size, copyBytes pg.data PageDataSize buffer.val⟩
    if oobBuffer.isEmpty then
      (NandStatus.Success, buffer1, oobBuffer)
    else if oobBuffer.size < OobSize then
      (NandStatus.InvalidAddress, buffer1, oobBuffer)
    else
      (NandStatus.Success, buffer1, ⟨oobBuffer.size, copyBytes pg.oob OobSize oobBuffer.val⟩)

/-- `NandChip::ProgramPage`: validate the address, verify the one-way
bit-programming physics on the data region and (when given) the OOB
region, and only then apply `stored &= in` to both regions. -/
def NandChip.programPage (c : NandChip) (blockIdx pageIdx : Nat)
    (dataIn oobIn : ByteBuf) : NandStatus × NandChip :=
  if blockIdx ≥ c.blocks.length ∨ pageIdx ≥ PagesPerBlock then
    (NandStatus.InvalidAddress, c)
  else
    let pg := c.page blockIdx pageIdx
    if ¬ checkAnd PageDataSize pg.data dataIn then (NandStatus.WriteError, c)
    else if ¬ oobIn.isEmpty ∧ ¬ checkAnd OobSize pg.oob oobIn then (NandStatus.WriteError, c)
    else
      (NandStatus.Success,
       c.setPage blockIdx pageIdx
         { data := progAnd PageDataSize pg.data dataIn,
           oob := if oobIn.isEmpty then pg.oob else progAnd OobSize pg.oob oobIn })

/-- `NandChip::EraseBlock`: every byte of the block back to `0xFF`,
`EraseCount` incremented, `IsBad` preserved (`Block::Erase`). -/
def NandChip.eraseBlock (c : NandChip) (blockIdx : Nat) : NandStatus × NandChip :=
  if blockIdx ≥ c.blocks.length then (NandStatus.InvalidAddress, c)
  else
    let b := c.blocks.getD blockIdx default
    (NandStatus.Success,
     { blocks := c.blocks.set blockIdx
        { pages := List.replicate PagesPerBlock freshPage,
          isBad := b.isBad, eraseCount := b.eraseCount + 1 } })

/-! ## Flash Translation Layer (`FtlDefs.hpp`, `Ftl.hpp`, `Ftl.cpp`) -/

/-- `enum class BlockState` from `FtlDefs.hpp`. -/
inductive BlockState where
  | Free
  | Active
  | Full
  | Bad
deriving DecidableEq, Repr

/-- `struct BlockInfo` from `FtlDefs.hpp`. -/
structure BlockInfo where
  state : BlockState
  eraseCount : Nat
  validPageBitmap : Nat
deriving DecidableEq, Repr

/-- The default-constructed `BlockInfo { Free, 0, 0 }`. -/
instance : Inhabited BlockInfo := ⟨⟨BlockState.Free, 0, 0⟩⟩

/-- `struct OobMetadata { Core::Word Magic; Lba LogicalAddress; }` copied
into the zero-initialised 64-byte OOB vector by
`std::memcpy(oob.data(), &meta, sizeof(OobMetadata))` on the little-endian
host: bytes 0..7 hold the 64-bit magic, bytes 8..11 the 32-bit LBA, the
struct's tail padding and the remaining vector bytes are 0. -/
def writeOob (lba : Nat) : ByteBuf :=
  ⟨OobSize, FtlMagic ||| ((lba % 2 ^ 32) <<< 64)⟩

/-- `meta.Magic` after `std::memcpy(&meta, oob.data(), sizeof(OobMetadata))`:
the 64-bit value in bytes 0..7. -/
def oobMagic (oob : ByteBuf) : Nat := oob.val % 2 ^ 64

/-- `meta.LogicalAddress` after the same `memcpy`: the 32-bit value in
bytes 8..11. -/
def oobLba (oob : ByteBuf) : Nat := (oob.val >>> 64) % 2 ^ 32

/-- Insert-or-assign on an association list, the `std::map` semantics of
`m_MappingTable[key] = value`. -/
def assocSet (m : List (Nat × Nat)) (k v : Nat) : List (Nat × Nat) :=
  match m with
  | [] => [(k, v)]
  | (k1, v1) :: rest => if k1 = k then (k, v) :: rest else (k1, v1) :: assocSet rest k v

/-- Bit-counting helper: the number of set bits among the `k` low-order
bits of `n`. -/
def popcountAux : Nat → Nat → Nat
  | 0, _ => 0
  | k + 1, n => n % 2 + popcountAux k (n / 2)

/-- `std::popcount` on a `uint64_t` (`ValidPageBitmap` is 64-bit). -/
def popcount (n : Nat) : Nat := popcountAux 64 n

/-- The FTL state (`class Ftl`).  The FTL owns the NAND chip, so the chip
is a field here.  `freeList` models the `std::vector` free list with the
vector's *back* at the list's *head* (so `push_back` is `::` and
`pop_back` takes the head). -/
structure Ftl where
  nand : NandChip
  totalBlocks : Nat
  mappingTable : List (Nat × Nat)
  blockTable : List BlockInfo
  freeList : List Nat
  currentActiveBlock : Nat
  currentPageOffset : Nat
deriving Repr

/-- Update one entry of the block table in place (`m_BlockTable[i]`). -/
def Ftl.withBlockInfo (f : Ftl) (i : Nat) (g : BlockInfo → BlockInfo) : Ftl :=
  { f with blockTable := f.blockTable.set i (g (f.blockTable.getD i default)) }

/-- The inner page loop of `Ftl::ScanAndMount` (`for (p = 1; p < 64; ++p)`).
`rem` counts the remaining iterations.  Returns the updated mapping table
and `some p` when an empty page (the active frontier) was found at offset
`p`; `none` when the loop ran out of pages or a read failed (both of which
leave the block `Full` in the source). -/
def scanPages (nand : NandChip) (b : Nat) :
    Nat → Nat → List (Nat × Nat) → List (Nat × Nat) × Option Nat
  | 0, _, m => (m, none)
  | rem + 1, p, m =>
    match nand.readPage b p (zeroBuf PageDataSize) (zeroBuf OobSize) with
    | (NandStatus.Success, _, oob) =>
      if oobMagic oob = FtlMagic then
        scanPages nand b rem (p + 1) (assocSet m (oobLba oob) ((b * 64 + p) % 2 ^ 32))
      else (m, some p)
    | _ => (m, none)

/-- The per-block body of `Ftl::ScanAndMount`. -/
def mountBlock (f : Ftl) (b : Nat) : Ftl :=
  match f.nand.readPage b 0 (zeroBuf PageDataSize) (zeroBuf OobSize) with
  | (NandStatus.Success, _, oob) =>
    if oobMagic oob = FtlMagic then
      let m1 := assocSet f.mappingTable (oobLba oob) ((b * 64) % 2 ^ 32)
      match scanPages f.nand b 63 1 m1 with
      | (m2, some p) =>
        { (f.withBlockInfo b fun bi => { bi with state := BlockState.Active }) with
          mappingTable := m2, currentActiveBlock := b, currentPageOffset := p }
      | (m2, none) =>
        { (f.withBlockInfo b fun bi => { bi with state := BlockState.Full }) with
          mappingTable := m2 }
    else
      { (f.withBlockInfo b fun bi =>
          { bi with state := BlockState.Free, eraseCount := 0 }) with
        freeList := b :: f.freeList }
  | _ => f.withBlockInfo b fun bi => { bi with state := BlockState.Bad }

/-- `Ftl::ScanAndMount`: clear the free list and the mapping table, then
visit every block in descending index order. -/
def scanAndMount (f : Ftl) : Ftl :=
  (List.range f.totalBlocks).reverse.foldl mountBlock
    { f with freeList := [], mappingTable := [] }

/-- The overwrite-invalidation step of `Ftl::Write`: if `lba` is already
mapped, clear the valid bit of its old physical page
(`ValidPageBitmap &= ~(1ULL << oldPage)`). -/
def Ftl.invalidateOld (f : Ftl) (lba : Nat) : Ftl :=
  match f.mappingTable.lookup lba with
  | none => f
  | some oldPba =>
    f.withBlockInfo (oldPba / 64) fun bi =>
      { bi with validPageBitmap :=
          bi.validPageBitmap &&& ((2 ^ 64 - 1) ^^^ (1 <<< (oldPba % 64))) }

/-- Pop the back of the free list and make that block the active block:
the tail of `Ftl::AllocateNewActiveBlock` once the free list is known to
be non-empty. -/
def Ftl.popFree (f : Ftl) : Nat × Ftl :=
  match f.freeList with
  | [] => (usizeMax, f)
  | nb :: rest =>
    (nb,
     { (f.withBlockInfo nb fun bi =>
          { bi with state := BlockState.Active, validPageBitmap := 0 }) with
       freeList := rest, currentActiveBlock := nb, currentPageOffset := 0 })

/-- The victim-selection loop of `Ftl::GarbageCollect`: scan blocks in
ascending order, skip the active block and `Free`/`Bad` blocks, keep the
first block with the strictly smallest `popcount(ValidPageBitmap)`. -/
def gcSelectVictim (f : Ftl) : Nat :=
  (List.range f.totalBlocks).foldl
    (fun acc i =>
      if i = f.currentActiveBlock then acc
      else
        let info := f.blockTable.getD i default
        if info.state = BlockState.Free ∨ info.state = BlockState.Bad then acc
        else
          let validCount := popcount info.validPageBitmap
          if validCount < acc.2 then (i, validCount) else acc)
    (usizeMax, 65) |>.1

/-- The migration-staging loop of `Ftl::GarbageCollect`: for every page of
the victim whose valid bit is set and whose read succeeds, stage
`(LogicalAddress, page bytes)` when the mapping still points at exactly
this physical page. -/
def gcStagePages (f : Ftl) (victim : Nat) : List (Nat × ByteBuf) :=
  (List.range 64).foldr
    (fun p acc =>
      if (f.blockTable.getD victim default).validPageBitmap &&& (1 <<< p) ≠ 0 then
        match f.nand.readPage victim p (zeroBuf PageDataSize) (zeroBuf OobSize) with
        | (NandStatus.Success, buf, oob) =>
          match f.mappingTable.lookup (oobLba oob) with
          | some pba =>
            if pba = (victim * 64 + p) % 2 ^ 32 then (oobLba oob, buf) :: acc else acc
          | none => acc
        | _ => acc
      else acc)
    []

/-- The program-and-commit tail of `Ftl::Write`: issue the NAND program at
the active frontier; on success update the mapping, set the valid bit,
advance the frontier and close the block when it becomes full; on failure
return the NAND status with the mapping untouched. -/
def programCommit (f : Ftl) (lba : Nat) (data : ByteBuf) : NandStatus × Ftl :=
  match f.nand.programPage f.currentActiveBlock f.currentPageOffset data (writeOob lba) with
  | (NandStatus.Success, nand1) =>
    let f3 : Ftl := { f with nand := nand1 }
    let f4 : Ftl :=
      { (f3.withBlockInfo f3.currentActiveBlock fun bi =>
          { bi with validPageBitmap := bi.validPageBitmap ||| (1 <<< f3.currentPageOffset) }) with
        mappingTable := assocSet f3.mappingTable lba
          ((f3.currentActiveBlock * 64 + f3.currentPageOffset) % 2 ^ 32),
        currentPageOffset := f3.currentPageOffset + 1 }
    if f4.currentPageOffset ≥ 64 then
      (NandStatus.Success,
       { (f4.withBlockInfo f4.currentActiveBlock fun bi =>
           { bi with state := BlockState.Full }) with
         currentActiveBlock := usizeMax })
    else (NandStatus.Success, f4)
  | (st, nand1) => (st, { f with nand := nand1 })

/-- The intermediate FTL state `programCommit` builds after a successful
program (bitmap bit set, mapping upserted, offset advanced), named so that
the full-block close-out can be stated about it. -/
def programF4 (f : Ftl) (lba : Nat) (nand1 : NandChip) : Ftl :=
  { (({ f with nand := nand1 } : Ftl).withBlockInfo f.currentActiveBlock fun bi =>
      { bi with validPageBitmap := bi.validPageBitmap ||| (1 <<< f.currentPageOffset) }) with
    mappingTable := assocSet f.mappingTable lba
      ((f.currentActiveBlock * 64 + f.currentPageOffset) % 2 ^ 32),
    currentPageOffset := f.currentPageOffset + 1 }

mutual

/-- `Ftl::Write`.  The first argument is recursion fuel: the C++ call
chain `Write → AllocateNewActiveBlock → GarbageCollect → Write` is
unbounded syntactically but never nests more than 5 frames deep, so any
fuel ≥ 16 gives exactly the C++ behaviour.  The allocate-if-needed step
stores the allocator's return value back into `m_CurrentActiveBlock`; on
allocation failure the C++ early-returns before `m_CurrentPageOffset = 0`,
so the offset is left untouched there. -/
def writeF : Nat → Ftl → Nat → ByteBuf → NandStatus × Ftl
  | 0, f, _, _ => (NandStatus.WriteError, f)
  | fuel + 1, f, lba, data =>
    if data.size ≠ PageDataSize then (NandStatus.WriteError, f)
    else
      let f1 := f.invalidateOld lba
      let f2 :=
        if f1.currentActiveBlock = usizeMax then
          let r := allocF fuel f1
          { r.2 with currentActiveBlock := r.1 }
        else f1
      if f2.currentActiveBlock = usizeMax then (NandStatus.WriteError, f2)
      else programCommit f2 lba data

/-- `Ftl::AllocateNewActiveBlock`. -/
def allocF : Nat → Ftl → Nat × Ftl
  | 0, f => (usizeMax, f)
  | fuel + 1, f =>
    if f.freeList.isEmpty then
      let r := gcF fuel f
      if ¬ r.1 then (usizeMax, r.2)
      else if r.2.freeList.isEmpty then (usizeMax, r.2)
      else r.2.popFree
    else f.popFree

/-- `Ftl::GarbageCollect`.  The write-back loop at the end re-issues
`Write` for every staged `(lba, bytes)` pair and aborts on the first
failure; it is modelled as a fold whose accumulator carries the success
flag, skipping the remaining entries once a write has failed (observably
identical to the C++ early `return false`). -/
def gcF : Nat → Ftl → Bool × Ftl
  | 0, f => (false, f)
  | fuel + 1, f =>
    let victim := gcSelectVictim f
    if victim = usizeMax then (false, f)
    else
      let staged := gcStagePages f victim
      match f.nand.eraseBlock victim with
      | (NandStatus.Success, nand1) =>
        let f1 : Ftl :=
          { ({ f with nand := nand1 }.withBlockInfo victim fun bi =>
              { state := BlockState.Free, eraseCount := bi.eraseCount + 1,
                validPageBitmap := 0 }) with
            freeList := victim :: f.freeList }
        staged.foldl
          (fun acc entry =>
            if ¬ acc.1 then acc
            else
              match writeF fuel acc.2 entry.1 entry.2 with
              | (NandStatus.Success, f2) => (true, f2)
              | (_, f2) => (false, f2))
          (true, f1)
      | _ => (false, f.withBlockInfo victim fun bi => { bi with state := BlockState.Bad })

end

/-- The allocate-if-needed step of `Ftl::Write`, as a standalone function
for stating theorems (`writeF` inlines exactly this expression). -/
def ensureActiveF (fuel : Nat) (f : Ftl) : Ftl :=
  if f.currentActiveBlock = usizeMax then
    let r := allocF fuel f
    { r.2 with currentActiveBlock := r.1 }
  else f

/-- Default fuel for the public FTL operations.  The C++ recursion
`Write → AllocateNewActiveBlock → GarbageCollect → Write → AllocateNewActiveBlock`
is at most 5 frames deep (a nested GC write never re-enters GC, because
the erased victim is on the free list), so 16 is far more than enough. -/
def ftlFuel : Nat := 16

/-- The `Ftl` object as the constructor body starts: block table sized to
`totalBlocks` with default-constructed entries, empty mapping and free
list, and the member initialisers of `Ftl.hpp`
(`m_CurrentActiveBlock = 0`, `m_CurrentPageOffset = 0`). -/
def Ftl.fresh (nand : NandChip) (totalBlocks : Nat) : Ftl :=
  { nand := nand, totalBlocks := totalBlocks, mappingTable := [],
    blockTable := List.replicate totalBlocks default, freeList := [],
    currentActiveBlock := 0, currentPageOffset := 0 }

/-- `Ftl::Ftl(nand, totalBlocks)`: size the block table, run
`ScanAndMount`, and allocate an initial active block when the free list is
non-empty (the C++ discards the allocator's return value here). -/
def Ftl.new (nand : NandChip) (totalBlocks : Nat) : Ftl :=
  let f1 := scanAndMount (Ftl.fresh nand totalBlocks)
  if f1.freeList.isEmpty then f1 else (allocF ftlFuel f1).2

/-- `Ftl::Write` with the default fuel. -/
def Ftl.write (f : Ftl) (lba : Nat) (data : ByteBuf) : NandStatus × Ftl :=
  writeF ftlFuel f lba data

/-- `Ftl::Read`: an unmapped LBA fills the caller's buffer with `0xFF` and
returns `Success`; a mapped LBA decodes the PBA and delegates to
`NandChip::ReadPage` (without requesting OOB).  `Ftl::Read` mutates no FTL
or NAND state, which the embedding reflects by being a pure function of
`f` that returns only the status and the caller's buffer. -/
def Ftl.read (f : Ftl) (lba : Nat) (buffer : ByteBuf) : NandStatus × ByteBuf :=
  match f.mappingTable.lookup lba with
  | none => (NandStatus.Success, replicateBuf buffer.size 0xFF)
  | some pba =>
    let r := f.nand.readPage (pba / 64) (pba % 64) buffer (zeroBuf 0)
    (r.1, r.2.1)

/-- `Ftl::GetBlockInfo`. -/
def Ftl.getBlockInfo (f : Ftl) (blockIdx : Nat) : BlockInfo :=
  f.blockTable.getD blockIdx default

/-! ## Storage controller (`StorageDefs.hpp`, `StorageController.cpp`)

The controller talks to host memory through the bus
(`Bus::Read`/`Bus::Write`), which the spec requires to appear as a pure
synchronous word interface.  Host memory is modelled as a byte-addressed
store `Nat → Nat`; a bus transaction moves one 64-bit little-endian word
(`Core::Data`), exactly as the zero-latency `RamDevice` does with its
8-byte `memcpy`. -/

/-- Register offsets from `StorageDefs.hpp` (`namespace Regs`). -/
def RegVS : Nat := 0x08

/-- `Regs::CC`. -/
def RegCC : Nat := 0x14

/-- `Regs::CSTS`. -/
def RegCSTS : Nat := 0x1C

/-- `Regs::ASQ_LO`. -/
def RegASQ : Nat := 0x28

/-- `Regs::ACQ_LO`. -/
def RegACQ : Nat := 0x30

/-- `Regs::SQ0TDBL`. -/
def RegSQ0TDBL : Nat := 0x1000

/-- `Regs::CQ0HDBL`. -/
def RegCQ0HDBL : Nat := 0x1004

/-- Read the 64-bit little-endian word at byte address `addr`
(`RamDevice::OnRead` with its 8-byte `memcpy`). -/
def busReadWord (m : Nat → Nat) (addr : Nat) : Nat :=
  (m addr % 256) |||
  ((m (addr + 1) % 256) <<< 8) |||
  ((m (addr + 2) % 256) <<< 16) |||
  ((m (addr + 3) % 256) <<< 24) |||
  ((m (addr + 4) % 256) <<< 32) |||
  ((m (addr + 5) % 256) <<< 40) |||
  ((m (addr + 6) % 256) <<< 48) |||
  ((m (addr + 7) % 256) <<< 56)

/-- Store the 64-bit word `w` little-endian at byte address `addr`
(`RamDevice::OnWrite` with its 8-byte `memcpy`). -/
def busWriteWord (m : Nat → Nat) (addr w : Nat) : Nat → Nat :=
  fun a => if addr ≤ a ∧ a < addr + 8 then (w >>> (8 * (a - addr))) &&& 255 else m a

/-- The fields of `struct SubmissionQueueEntry` that the controller
fetches and consumes. -/
structure SubmissionQueueEntry where
  opcode : Nat
  prp1 : Nat
  dword10 : Nat
  dword12 : Nat
deriving DecidableEq, Repr

/-- `m_PendingCmd{}`: zero-initialised. -/
instance : Inhabited SubmissionQueueEntry := ⟨⟨0, 0, 0, 0⟩⟩

/-- `class StorageController` state (member initialisers of
`StorageController.hpp`: `m_CSTS = Ready`, everything else zero).
`completions` is a history variable recording, observer-only, every
completion-entry bus write `(address, word)` that `PostCompletion`
performs, most recent first; it affects no behaviour and exists so the
theorems can count and inspect posted completions. -/
structure StorageController where
  ftl : Ftl
  baseAddr : Nat
  csts : Nat
  cc : Nat
  asq : Nat
  acq : Nat
  sq0tdbl : Nat
  sq0head : Nat
  cq0hdbl : Nat
  cq0tail : Nat
  busyTicks : Nat
  pendingCmd : SubmissionQueueEntry
  hasPendingCmd : Bool
  completions : List (Nat × Nat)

/-- `StorageController::StorageController(ftl)` plus `SetBaseAddress`. -/
def StorageController.new (ftl : Ftl) (baseAddr : Nat) : StorageController :=
  { ftl := ftl, baseAddr := baseAddr, csts := 1, cc := 0, asq := 0, acq := 0,
    sq0tdbl := 0, sq0head := 0, cq0hdbl := 0, cq0tail := 0, busyTicks := 0,
    pendingCmd := default, hasPendingCmd := false, completions := [] }

/-- `StorageController::FetchCommand`: refuse when busy, otherwise
DMA-read the 64-byte submission entry at `ASQ + 64 * head` (opcode byte at
offset 0, PRP1 at +24, LBA dword at +40, length dword at +48), advance the
head, arm the 5-tick latency counter and latch the command. -/
def StorageController.fetchCommand (c : StorageController) (mem : Nat → Nat) :
    StorageController :=
  if c.busyTicks > 0 then c
  else
    let cmdAddr := c.asq + c.sq0head * 64
    { c with
      pendingCmd :=
        { opcode := busReadWord mem cmdAddr &&& 0xFF,
          prp1 := busReadWord mem (cmdAddr + 24),
          dword10 := busReadWord mem (cmdAddr + 40) % 2 ^ 32,
          dword12 := busReadWord mem (cmdAddr + 48) % 2 ^ 32 },
      sq0head := (c.sq0head + 1) % 2 ^ 16,
      hasPendingCmd := true,
      busyTicks := 5 }

/-- `StorageController::PostCompletion`: write the single status word
`(status << 17) | 1` (the caller has already shifted the NVMe status right
by one) at `ACQ + 16 * cq_tail + 12` and advance the completion tail.
The write is also recorded in the `completions` history. -/
def StorageController.postCompletion (c : StorageController) (mem : Nat → Nat)
    (status : Nat) : StorageController × (Nat → Nat) :=
  let cqeAddr := c.acq + c.cq0tail * 16
  let statusWord := (status <<< 17) ||| 1
  ({ c with
     cq0tail := (c.cq0tail + 1) % 2 ^ 16,
     completions := (cqeAddr + 12, statusWord) :: c.completions },
   busWriteWord mem (cqeAddr + 12) statusWord)

/-- The word-gathering DMA-read loop of the write opcode:
`for (i = 0; i < 4096; ++i) if (i % 4 == 0) { Bus::Read(prp1 + i, b); memcpy(&buffer[i], &b, 4); }`.
`k` counts processed words; the packed result places the low 4 bytes of
word `k` at byte offset `4 * k`. -/
def dmaGather (mem : Nat → Nat) (prp1 : Nat) : Nat → Nat
  | 0 => 0
  | k + 1 => dmaGather mem prp1 k ||| ((busReadWord mem (prp1 + 4 * k) % 2 ^ 32) <<< (32 * k))

/-- The word-scattering DMA-write loop of the read opcode:
`for (i = 0; i < 4096; i += 4) { memcpy(&b, &buffer[i], 4); Bus::Write(prp1 + i, b); }`.
The C++ leaves the high 4 bytes of the stack word `b` uninitialised;
modelled choice: they read as zero. -/
def dmaScatter (mem : Nat → Nat) (prp1 : Nat) (buf : ByteBuf) : Nat → (Nat → Nat)
  | 0 => mem
  | k + 1 => busWriteWord (dmaScatter mem prp1 buf k) (prp1 + 4 * k) ((buf.val >>> (32 * k)) % 2 ^ 32)

/-- `StorageController::ExecuteCommand`: clear the pending latch, dispatch
on the opcode (0x01 write: DMA-gather the payload then `Ftl::Write`,
status `0x0000`/`0x0001`; 0x02 read: `Ftl::Read` then DMA-scatter the
buffer, status `0x0000`/`0x0281`; anything else: status `0x0001`), and
post the completion with `status >> 1`. -/
def StorageController.executeCommand (c : StorageController) (mem : Nat → Nat) :
    StorageController × (Nat → Nat) :=
  let c1 := { c with hasPendingCmd := false }
  if c.pendingCmd.opcode = 0x01 then
    let buffer : ByteBuf := ⟨PageDataSize, dmaGather mem c.pendingCmd.prp1 (PageDataSize / 4)⟩
    let r := writeF ftlFuel c1.ftl c.pendingCmd.dword10 buffer
    let status : Nat := if r.1 = NandStatus.Success then 0 else 0x0001
    StorageController.postCompletion { c1 with ftl := r.2 } mem (status >>> 1)
  else if c.pendingCmd.opcode = 0x02 then
    let r := c1.ftl.read c.pendingCmd.dword10 (zeroBuf PageDataSize)
    let status : Nat := if r.1 = NandStatus.Success then 0 else 0x0281
    let mem1 := dmaScatter mem c.pendingCmd.prp1 r.2 (PageDataSize / 4)
    StorageController.postCompletion c1 mem1 (status >>> 1)
  else
    StorageController.postCompletion c1 mem ((0x0001 : Nat) >>> 1)

/-- The internal NVMe status code `ExecuteCommand` computes for the
currently latched command (`0x0000` success, `0x0001` failed write or
unknown opcode, `0x0281` failed read), as a standalone function for
stating theorems; `executeCommand_completions` proves it matches. -/
def StorageController.executeStatus (c : StorageController) (mem : Nat → Nat) : Nat :=
  if c.pendingCmd.opcode = 0x01 then
    if (writeF ftlFuel c.ftl c.pendingCmd.dword10
        ⟨PageDataSize, dmaGather mem c.pendingCmd.prp1 (PageDataSize / 4)⟩).1 =
        NandStatus.Success then 0 else 0x0001
  else if c.pendingCmd.opcode = 0x02 then
    if (c.ftl.read c.pendingCmd.dword10 (zeroBuf PageDataSize)).1 = NandStatus.Success
    then 0 else 0x0281
  else 0x0001

/-- `StorageController::OnTick`: count the latency down; when it reaches
zero with a latched command, execute it. -/
def StorageController.onTick (c : StorageController) (mem : Nat → Nat) :
    StorageController × (Nat → Nat) :=
  if c.busyTicks > 0 then
    let c1 := { c with busyTicks := c.busyTicks - 1 }
    if c1.busyTicks = 0 ∧ c1.hasPendingCmd then c1.executeCommand mem else (c1, mem)
  else (c, mem)

/-- `StorageController::OnWrite`: decode the register offset and perform
the documented side effects.  `CC` bit 0 set ⇒ `CSTS` ready; cleared ⇒
ready cleared and the four queue registers reset (the pending-command
latch and the latency counter are *not* touched).  A doorbell write with a
new tail ≠ head triggers `FetchCommand`.  Unrecognised offsets are
no-ops. -/
def StorageController.onWrite (c : StorageController) (mem : Nat → Nat)
    (addr inData : Nat) : StorageController :=
  let offset := addr - c.baseAddr
  if offset = RegCC then
    let c1 := { c with cc := inData }
    if c1.cc &&& 1 ≠ 0 then { c1 with csts := c1.csts ||| 1 }
    else
      { c1 with
        csts := c1.csts &&& ((2 ^ 64 - 1) ^^^ 1),
        sq0head := 0, sq0tdbl := 0, cq0tail := 0, cq0hdbl := 0 }
  else if offset = RegASQ then { c with asq := inData }
  else if offset = RegACQ then { c with acq := inData }
  else if offset = RegSQ0TDBL then
    let c1 := { c with sq0tdbl := inData &&& 0xFFFF }
    if c1.sq0tdbl ≠ c1.sq0head then c1.fetchCommand mem else c1
  else if offset = RegCQ0HDBL then { c with cq0hdbl := inData &&& 0xFFFF }
  else c

/-- `StorageController::OnRead`: `CSTS`, `CC` and the fixed version word;
everything else reads as zero. -/
def StorageController.onRead (c : StorageController) (addr : Nat) : Nat :=
  let offset := addr - c.baseAddr
  if offset = RegCSTS then c.csts
  else if offset = RegCC then c.cc
  else if offset = RegVS then 0x00010000
  else 0

/-- `StorageController::IsAddressInRange`: the 8-KiB window. -/
def StorageController.isAddressInRange (c : StorageController) (addr : Nat) : Prop :=
  c.baseAddr ≤ addr ∧ addr < c.baseAddr + 0x2000

/-- Run `OnTick` `n` times (the test harness' tick loop). -/
def ticksRun : Nat → StorageController × (Nat → Nat) → StorageController × (Nat → Nat)
  | 0, s => s
  | n + 1, s => ticksRun n (s.1.onTick s.2)

/-! ## The active-frontier invariant (claim C10) -/

/-- The frontier invariant: the block table has `totalBlocks` entries,
the block count fits a `size_t`, every free-list entry is a real block
index, and whenever the active frontier is set (`m_CurrentActiveBlock`
is not the sentinel) the page offset is strictly below `PagesPerBlock`
and the active block's state is `Active`. -/
def FtlInv (f : Ftl) : Prop :=
  f.blockTable.length = f.totalBlocks ∧
  f.totalBlocks ≤ usizeMax ∧
  (∀ b ∈ f.freeList, b < f.totalBlocks) ∧
  (f.currentActiveBlock ≠ usizeMax →
    f.currentPageOffset < PagesPerBlock ∧
    (f.blockTable.getD f.currentActiveBlock default).state = BlockState.Active)

/-! ## Concrete devices and traces for the witnesses and counterexamples -/

/-- A full-page payload with every byte equal to `b`. -/
def payConst (b : Nat) : ByteBuf := replicateBuf PageDataSize b

/-- C1 trace: a fresh FTL over a 2-block chip. -/
def c1Ftl0 : Ftl := Ftl.new (NandChip.new 2) 2

/-- C1 trace: first write of LBA 5 (payload all `0xCC`), landing in block 0
page 0. -/
def c1First : NandStatus × Ftl := c1Ftl0.write 5 (payConst 0xCC)

/-- C1 trace: 63 further writes to distinct LBAs 100..162, filling block 0;
the flag is `true` iff every write (including tracking of the fold) returned
`Success`. -/
def c1Fill : Bool × Ftl :=
  (List.range 63).foldl
    (fun acc n =>
      let r := acc.2.write (100 + n) (payConst 0xAA)
      (acc.1 && (r.1 == NandStatus.Success), r.2))
    (true, c1First.2)

/-- C1 trace: the most recent write of LBA 5 (payload all `0xDD`), landing
in block 1 page 0. -/
def c1Last : NandStatus × Ftl := c1Fill.2.write 5 (payConst 0xDD)

/-- C1 trace: destroy the FTL and construct a new one over the same NAND. -/
def c1Remounted : Ftl := Ftl.new c1Last.2.nand 2

/-- C3 trace: a fresh FTL over a 2-block chip. -/
def c3Ftl0 : Ftl := Ftl.new (NandChip.new 2) 2

/-- C3 trace: write LBAs 0..63 (payload all `0xAA`), filling block 0. -/
def c3Fill : Bool × Ftl :=
  (List.range 64).foldl
    (fun acc n =>
      let r := acc.2.write n (payConst 0xAA)
      (acc.1 && (r.1 == NandStatus.Success), r.2))
    (true, c3Ftl0)

/-- C3 trace: write LBA 64 into block 1 page 0 and "shut down". -/
def c3PreShutdown : NandStatus × Ftl := c3Fill.2.write 64 (payConst 0xAA)

/-- C3 trace: reconstruct the FTL over the same NAND (mount leaves every
`ValidPageBitmap` zero). -/
def c3Remounted : Ftl := Ftl.new c3PreShutdown.2.nand 2

/-- C3 trace: 63 further writes (LBAs 65..127) filling block 1, which
closes the active frontier; the free list is empty. -/
def c3Full : Bool × Ftl :=
  (List.range 63).foldl
    (fun acc n =>
      let r := acc.2.write (65 + n) (payConst 0xAA)
      (acc.1 && (r.1 == NandStatus.Success), r.2))
    (true, c3Remounted)

/-- C3 trace: run one garbage-collection pass on that state. -/
def c3Gc : Bool × Ftl := gcF ftlFuel c3Full.2

/-- C6 witness chip, block 0 page 0: a page carrying FTL metadata for
LBA 0 (so mount treats the block as used). -/
def c6Page0 : NandPage :=
  { data := 2 ^ (8 * PageDataSize) - 1, oob := (writeOob 0).val }

/-- C6 witness chip, block 0 page 1: a data page already programmed to all
zeroes whose OOB is still erased, so mount places the active frontier
here while any further program of nonzero data must fail. -/
def c6Page1 : NandPage := { data := 0, oob := 2 ^ (8 * OobSize) - 1 }

/-- C6 witness chip: one block whose page 0 is FTL-tagged and whose page 1
is the (unprogrammable) frontier. -/
def c6Chip : NandChip :=
  { blocks := [{ pages := c6Page0 :: c6Page1 :: List.replicate 62 freshPage,
                 isBad := false, eraseCount := 0 }] }

/-- C6 witness FTL: mounting `c6Chip` puts the frontier at `(0, 1)`. -/
def c6Ftl : Ftl := Ftl.new c6Chip 1

/-- C6 witness: the FTL state at the moment `Ftl::Write` issues the NAND
program (after the invalidation and allocate-if-needed steps, both no-ops
here). -/
def c6Stage : Ftl := ensureActiveF 15 (c6Ftl.invalidateOld 5)

/-- C6 witness: the failing NAND program call of `c6Ftl.write 5`. -/
def c6Prog : NandStatus × NandChip :=
  c6Stage.nand.programPage c6Stage.currentActiveBlock c6Stage.currentPageOffset
    (payConst 0x01) (writeOob 5)

/-- C10 counterexample chip: one block whose 64 pages all carry FTL
metadata (a fully used device with no free block and no empty frontier
page). -/
def c10Chip : NandChip :=
  { blocks := [{ pages := (List.range 64).map fun p =>
                   { data := 2 ^ (8 * PageDataSize) - 1, oob := (writeOob p).val },
                 isBad := false, eraseCount := 0 }] }

/-- C10 counterexample FTL: constructed over the fully used chip, mount
finds neither a free block nor a frontier, and the constructor leaves
`m_CurrentActiveBlock` at its member-initialiser value 0. -/
def c10Ftl : Ftl := Ftl.new c10Chip 1

/-- A 1-block FTL used by the controller traces (never actually driven,
since the traces use an unknown opcode). -/
def tinyFtl : Ftl := Ftl.new (NandChip.new 1) 1

/-- The controller base address used by the repository's integration
tests. -/
def ctrlBase : Nat := 0xF0000000

/-- All-zero host memory: submission entries read as opcode 0 (unknown),
PRP1 0, LBA 0. -/
def zeroMem : Nat → Nat := fun _ => 0

/-- Controller trace: freshly constructed controller. -/
def ctrl0 : StorageController := StorageController.new tinyFtl ctrlBase

/-- Controller trace: `CC` written with bit 0 set (enable). -/
def ctrlEnabled : StorageController := ctrl0.onWrite zeroMem (ctrlBase + RegCC) 1

/-- Controller trace: submission tail doorbell rung to 1 while idle; the
controller fetches the (unknown-opcode) command and arms the 5-tick
latency. -/
def ctrlRing1 : StorageController := ctrlEnabled.onWrite zeroMem (ctrlBase + RegSQ0TDBL) 1

/-- C4 counterexample trace: the doorbell rung again (to 2) while the
controller is busy; `FetchCommand` refuses and the increment is dropped. -/
def ctrlRing2 : StorageController := ctrlRing1.onWrite zeroMem (ctrlBase + RegSQ0TDBL) 2

/-- C4 counterexample: run 12 ticks after the two doorbell increments. -/
def c4Run : StorageController × (Nat → Nat) := ticksRun 12 (ctrlRing2, zeroMem)

/-- C5 counterexample: run 6 ticks after a single doorbell increment with
an unknown-opcode command. -/
def c5Run : StorageController × (Nat → Nat) := ticksRun 6 (ctrlRing1, zeroMem)

/-- C8 counterexample: reset (`CC` bit 0 cleared) while a fetched command
is still pending. -/
def c8Reset : StorageController := ctrlRing1.onWrite zeroMem (ctrlBase + RegCC) 0

/-- C8 counterexample: run 6 ticks after the reset. -/
def c8Run : StorageController × (Nat → Nat) := ticksRun 6 (c8Reset, zeroMem)

/-! ## Byte-level semantics of the packed-buffer operations

These lemmas check the packed-`Nat` encoding against the per-byte loops of
the C++ source: `checkAnd` is the physics-verification loop, `progAnd` the
programming loop, `copyBytes` the `std::copy`, `allBytes` the
`std::vector(n, b)` constructor. -/

theorem byteAt_lt (v i : Nat) : byteAt v i < 256 := by
  have h : byteAt v i = (v >>> (8 * i)) % 2 ^ 8 := by
    show (v >>> (8 * i)) &&& (2 ^ 8 - 1) = _
    exact Nat.and_pow_two_sub_one_eq_mod _ 8
  rw [h]
  exact Nat.mod_lt _ (by norm_num)

theorem testBit_byteAt (v i j : Nat) :
    (byteAt v i).testBit j = (decide (j < 8) && v.testBit (8 * i + j)) := by
  have h : byteAt v i = (v >>> (8 * i)) % 2 ^ 8 := by
    show (v >>> (8 * i)) &&& (2 ^ 8 - 1) = _
    exact Nat.and_pow_two_sub_one_eq_mod _ 8
  rw [h, Nat.testBit_mod_two_pow, Nat.testBit_shiftRight]

theorem land_eq_right_iff (a b : Nat) :
    a &&& b = b ↔ ∀ t, b.testBit t = true → a.testBit t = true := by
  constructor
  · intro h t hb
    have h2 := congrArg (fun x => x.testBit t) h
    simp only [Nat.testBit_land, hb, Bool.and_true] at h2
    exact h2
  · intro h
    apply Nat.eq_of_testBit_eq
    intro t
    rw [Nat.testBit_land]
    cases hb : b.testBit t
    · simp
    · simp [h t hb]

theorem checkAnd_iff_bytes (R : Nat) (old : Nat) (b : ByteBuf) :
    checkAnd R old b = true ↔
      ∀ i < min R b.size, byteAt old i &&& b.get i = b.get i := by
  unfold checkAnd ByteBuf.get
  rw [beq_iff_eq, land_eq_right_iff]
  constructor
  · intro h i hi
    apply (land_eq_right_iff _ _).2
    intro j hj
    rw [testBit_byteAt, Bool.and_eq_true] at hj
    obtain ⟨hj8, hjb⟩ := hj
    have hj8n : j < 8 := of_decide_eq_true hj8
    have hlt : 8 * i + j < 8 * min R b.size := by omega
    have h1 : (b.val % 2 ^ (8 * min R b.size)).testBit (8 * i + j) = true := by
      rw [Nat.testBit_mod_two_pow, hjb]
      simpa using hlt
    have h2 := h (8 * i + j) h1
    rw [Nat.testBit_mod_two_pow, Bool.and_eq_true] at h2
    obtain ⟨-, h3⟩ := h2
    rw [testBit_byteAt, h3]
    simpa using hj8n
  · intro h t ht
    rw [Nat.testBit_mod_two_pow] at ht ⊢
    rw [Bool.and_eq_true] at ht
    obtain ⟨htl, htb⟩ := ht
    have htln : t < 8 * min R b.size := of_decide_eq_true htl
    have hi : t / 8 < min R b.size := by omega
    have hbit := (land_eq_right_iff _ _).1 (h (t / 8) hi) (t % 8)
    have hsplit : 8 * (t / 8) + t % 8 = t := by omega
    have hb1 : (byteAt b.val (t / 8)).testBit (t % 8) = true := by
      rw [testBit_byteAt, hsplit, htb]
      simp [Nat.mod_lt]
    have hb2 := hbit hb1
    rw [testBit_byteAt, hsplit, Bool.and_eq_true] at hb2
    obtain ⟨-, h4⟩ := hb2
    rw [h4, htl]
    simp

theorem testBit_high_false {x j : Nat} (hx : x < 256) (hj : 8 ≤ j) :
    x.testBit j = false := by
  apply Nat.testBit_lt_two_pow
  calc x < 256 := hx
    _ = 2 ^ 8 := by norm_num
    _ ≤ 2 ^ j := Nat.pow_le_pow_right (by norm_num) hj

theorem progAnd_byte (R : Nat) (old : Nat) (b : ByteBuf) (i : Nat) :
    byteAt (progAnd R old b) i =
      if i < min R b.size then byteAt old i &&& b.get i else byteAt old i := by
  unfold progAnd ByteBuf.get
  apply Nat.eq_of_testBit_eq
  intro j
  by_cases hj : j < 8
  · rw [testBit_byteAt]
    simp only [Nat.testBit_lor, Nat.testBit_land, Nat.testBit_mod_two_pow,
      Nat.testBit_shiftLeft, Nat.testBit_shiftRight]
    by_cases hi : i < min R b.size
    · have hlt : 8 * i + j < 8 * min R b.size := by omega
      have hge : ¬ (8 * i + j ≥ 8 * min R b.size) := by omega
      simp only [hj, hlt, hge, decide_True, decide_False, Bool.true_and,
        Bool.and_true, Bool.false_and, Bool.and_false, Bool.or_false, if_pos hi]
      rw [Nat.testBit_land, testBit_byteAt, testBit_byteAt]
      simp [hj]
    · have hge : 8 * min R b.size ≤ 8 * i + j := by omega
      have hlt : ¬ (8 * i + j < 8 * min R b.size) := by omega
      simp only [hj, hge, hlt, decide_True, decide_False, Bool.true_and,
        Bool.false_and, Bool.and_false, Bool.false_or, if_neg hi]
      rw [testBit_byteAt]
      have harith : 8 * min R b.size + (8 * i + j - 8 * min R b.size) = 8 * i + j := by
        omega
      simp [hj, harith]
  · have hj8 : 8 ≤ j := by omega
    rw [testBit_high_false (byteAt_lt _ _) hj8]
    by_cases hi : i < min R b.size
    · rw [if_pos hi]
      have hb : byteAt old i &&& byteAt b.val i < 256 :=
        lt_of_le_of_lt (Nat.and_le_left) (byteAt_lt _ _)
      rw [testBit_high_false hb hj8]
    · rw [if_neg hi, testBit_high_false (byteAt_lt _ _) hj8]

theorem copyBytes_byte (src n dst i : Nat) :
    byteAt (copyBytes src n dst) i = if i < n then byteAt src i else byteAt dst i := by
  unfold copyBytes
  apply Nat.eq_of_testBit_eq
  intro j
  by_cases hj : j < 8
  · rw [testBit_byteAt]
    simp only [Nat.testBit_lor, Nat.testBit_mod_two_pow, Nat.testBit_shiftLeft,
      Nat.testBit_shiftRight]
    by_cases hi : i < n
    · have hlt : 8 * i + j < 8 * n := by omega
      have hge : ¬ (8 * i + j ≥ 8 * n) := by omega
      simp only [hj, hlt, hge, decide_True, decide_False, Bool.true_and,
        Bool.false_and, Bool.or_false, if_pos hi]
      rw [testBit_byteAt]
      simp [hj]
    · have hge : 8 * n ≤ 8 * i + j := by omega
      have hlt : ¬ (8 * i + j < 8 * n) := by omega
      simp only [hj, hge, hlt, decide_True, decide_False, Bool.true_and,
        Bool.false_and, Bool.false_or, if_neg hi]
      rw [testBit_byteAt]
      have harith : 8 * n + (8 * i + j - 8 * n) = 8 * i + j := by omega
      simp [hj, harith]
  · have hj8 : 8 ≤ j := by omega
    rw [testBit_high_false (byteAt_lt _ _) hj8]
    by_cases hi : i < n
    · rw [if_pos hi, testBit_high_false (byteAt_lt _ _) hj8]
    · rw [if_neg hi, testBit_high_false (byteAt_lt _ _) hj8]

theorem allBytes_succ (n b : Nat) : allBytes (n + 1) b = b % 256 + 256 * allBytes n b := by
  unfold allBytes
  have hdvd : 255 ∣ 2 ^ (8 * n) - 1 := by
    have h := nat_sub_dvd_pow_sub_pow 256 1 n
    have h2 : (256 : Nat) ^ n = 2 ^ (8 * n) := by
      rw [show (256 : Nat) = 2 ^ 8 by norm_num, ← pow_mul]
    simpa [h2] using h
  obtain ⟨q, hq⟩ := hdvd
  have hq1 : (2 ^ (8 * n) - 1) / 255 = q := by
    rw [hq]
    exact Nat.mul_div_cancel_left q (by norm_num)
  have hpos : 1 ≤ 2 ^ (8 * n) := Nat.one_le_two_pow
  have hq2 : 2 ^ (8 * (n + 1)) - 1 = 255 * (256 * q + 1) := by
    have h3 : 2 ^ (8 * (n + 1)) = 256 * 2 ^ (8 * n) := by
      rw [show 8 * (n + 1) = 8 * n + 8 by ring, pow_add]
      ring
    omega
  rw [hq2, hq1, Nat.mul_div_cancel_left _ (by norm_num : (0:Nat) < 255)]
  ring

theorem byteAt_zero (v : Nat) : byteAt v 0 = v % 256 := by
  show (v >>> 0) &&& (2 ^ 8 - 1) = _
  rw [Nat.and_pow_two_sub_one_eq_mod, Nat.shiftRight_zero]

theorem byteAt_succ (v i : Nat) : byteAt v (i + 1) = byteAt (v / 256) i := by
  unfold byteAt
  rw [Nat.shiftRight_eq_div_pow, Nat.shiftRight_eq_div_pow, Nat.div_div_eq_div_mul]
  congr 2
  rw [show 8 * (i + 1) = 8 + 8 * i by ring, pow_add]
  norm_num

theorem byteAt_allBytes (n b : Nat) : ∀ i < n, byteAt (allBytes n b) i = b % 256 := by
  induction n with
  | zero => intro i hi; omega
  | succ n ih =>
    intro i hi
    rw [allBytes_succ]
    cases i with
    | zero =>
      rw [byteAt_zero, Nat.add_mul_mod_self_left]
      omega
    | succ i =>
      rw [byteAt_succ]
      have h : (b % 256 + 256 * allBytes n b) / 256 = allBytes n b := by
        rw [Nat.add_mul_div_left _ _ (by norm_num : (0:Nat) < 256)]
        simp [Nat.div_eq_of_lt (Nat.mod_lt _ (by norm_num : (0:Nat) < 256))]
      rw [h]
      exact ih i (by omega)

/-! ## List and association-list lemmas -/

theorem getD_set_self {α : Type} (l : List α) (i : Nat) (a d : α) (h : i < l.length) :
    (l.set i a).getD i d = a := by
  rw [List.getD_eq_getElem?_getD, List.getElem?_set_self h]
  rfl

theorem getD_set_ne {α : Type} (l : List α) (i j : Nat) (a d : α) (h : i ≠ j) :
    (l.set i a).getD j d = l.getD j d := by
  rw [List.getD_eq_getElem?_getD, List.getElem?_set_ne h, ← List.getD_eq_getElem?_getD]

theorem lookup_cons_self {β : Type} (k : Nat) (v1 : β) (tl : List (Nat × β)) :
    List.lookup k ((k, v1) :: tl) = some v1 := by
  simp [List.lookup_cons]

theorem lookup_cons_ne {β : Type} (k k1 : Nat) (v1 : β) (tl : List (Nat × β))
    (h : k ≠ k1) : List.lookup k ((k1, v1) :: tl) = List.lookup k tl := by
  simp [List.lookup_cons, beq_false_of_ne h]

theorem lookup_assocSet_self (m : List (Nat × Nat)) (k v : Nat) :
    (assocSet m k v).lookup k = some v := by
  induction m with
  | nil => simp [assocSet, lookup_cons_self]
  | cons hd tl ih =>
    obtain ⟨k1, v1⟩ := hd
    by_cases h : k1 = k
    · subst h
      simp [assocSet, lookup_cons_self]
    · simp only [assocSet, if_neg h]
      rw [lookup_cons_ne _ _ _ _ (fun hk => h hk.symm)]
      exact ih

theorem lookup_assocSet_ne (m : List (Nat × Nat)) (k v k2 : Nat) (h : k2 ≠ k) :
    (assocSet m k v).lookup k2 = m.lookup k2 := by
  induction m with
  | nil =>
    show List.lookup k2 [(k, v)] = List.lookup k2 []
    rw [lookup_cons_ne _ _ _ _ h]
  | cons hd tl ih =>
    obtain ⟨k1, v1⟩ := hd
    by_cases hk : k1 = k
    · rw [show assocSet ((k1, v1) :: tl) k v = (k, v) :: tl from by simp [assocSet, hk]]
      have h1 : k2 ≠ k1 := by rw [hk]; exact h
      rw [lookup_cons_ne _ _ _ _ h, lookup_cons_ne _ _ _ _ h1]
    · rw [show assocSet ((k1, v1) :: tl) k v = (k1, v1) :: assocSet tl k v from by
        simp [assocSet, hk]]
      by_cases h2 : k2 = k1
      · subst h2
        rw [lookup_cons_self, lookup_cons_self]
      · rw [lookup_cons_ne _ _ _ _ h2, lookup_cons_ne _ _ _ _ h2]
        exact ih

/-! ## Field-preservation lemmas for the FTL operations -/

theorem withBlockInfo_fields (f : Ftl) (i : Nat) (g : BlockInfo → BlockInfo) :
    (f.withBlockInfo i g).mappingTable = f.mappingTable ∧
    (f.withBlockInfo i g).freeList = f.freeList ∧
    (f.withBlockInfo i g).currentActiveBlock = f.currentActiveBlock ∧
    (f.withBlockInfo i g).currentPageOffset = f.currentPageOffset ∧
    (f.withBlockInfo i g).nand = f.nand ∧
    (f.withBlockInfo i g).totalBlocks = f.totalBlocks ∧
    (f.withBlockInfo i g).blockTable.length = f.blockTable.length := by
  simp [Ftl.withBlockInfo, List.length_set]

theorem invalidateOld_fields (f : Ftl) (lba : Nat) :
    (f.invalidateOld lba).mappingTable = f.mappingTable ∧
    (f.invalidateOld lba).freeList = f.freeList ∧
    (f.invalidateOld lba).currentActiveBlock = f.currentActiveBlock ∧
    (f.invalidateOld lba).currentPageOffset = f.currentPageOffset ∧
    (f.invalidateOld lba).nand = f.nand ∧
    (f.invalidateOld lba).totalBlocks = f.totalBlocks ∧
    (f.invalidateOld lba).blockTable.length = f.blockTable.length := by
  unfold Ftl.invalidateOld
  cases f.mappingTable.lookup lba
  · simp
  · simp [Ftl.withBlockInfo, List.length_set]

theorem popFree_mappingTable (f : Ftl) : (f.popFree).2.mappingTable = f.mappingTable := by
  unfold Ftl.popFree
  cases h : f.freeList
  · rfl
  · simp [Ftl.withBlockInfo]

theorem allocF_mappingTable_of_nonempty (fuel : Nat) (f : Ftl) (h : f.freeList ≠ []) :
    (allocF fuel f).2.mappingTable = f.mappingTable := by
  cases fuel with
  | zero => rfl
  | succ fuel =>
    have he : f.freeList.isEmpty = false := by
      cases hl : f.freeList
      · exact absurd hl h
      · rfl
    simp only [allocF, he, Bool.false_eq_true, if_false]
    exact popFree_mappingTable f

theorem ensureActiveF_mappingTable (fuel : Nat) (f : Ftl)
    (h : f.currentActiveBlock ≠ usizeMax ∨ f.freeList ≠ []) :
    (ensureActiveF fuel f).mappingTable = f.mappingTable := by
  unfold ensureActiveF
  by_cases ha : f.currentActiveBlock = usizeMax
  · rcases h with h | h
    · exact absurd ha h
    · simp only [ha, if_pos rfl]
      exact allocF_mappingTable_of_nonempty fuel f h
  · simp [ha]

/-! ## Claim theorems -/

/-- C2: for every block and page inside the chip's geometry, NAND
program-page succeeds iff `(old & in) == in` holds at every covered byte
position of both the data and OOB regions (the OOB region only being
covered when an OOB buffer is given); on success each covered stored byte
becomes `old & in`; and on `WriteError` no stored byte of the page is
mutated (the chip is returned unchanged — the program is transactional at
page level). -/
theorem programPage_spec (c : NandChip) (b p : Nat) (dataIn oobIn : ByteBuf)
    (hb : b < c.blocks.length) (hp : p < PagesPerBlock)
    (hpl : (c.blocks.getD b default).pages.length = PagesPerBlock) :
    ((c.programPage b p dataIn oobIn).1 = NandStatus.Success ↔
      ((∀ i < min PageDataSize dataIn.size,
          byteAt (c.page b p).data i &&& dataIn.get i = dataIn.get i) ∧
       (oobIn.isEmpty = false →
         ∀ i < min OobSize oobIn.size,
          byteAt (c.page b p).oob i &&& oobIn.get i = oobIn.get i))) ∧
    ((c.programPage b p dataIn oobIn).1 = NandStatus.Success →
      (∀ i < min PageDataSize dataIn.size,
         byteAt ((c.programPage b p dataIn oobIn).2.page b p).data i =
           byteAt (c.page b p).data i &&& dataIn.get i) ∧
      (oobIn.isEmpty = false →
        ∀ i < min OobSize oobIn.size,
         byteAt ((c.programPage b p dataIn oobIn).2.page b p).oob i =
           byteAt (c.page b p).oob i &&& oobIn.get i)) ∧
    ((c.programPage b p dataIn oobIn).1 = NandStatus.WriteError →
      (c.programPage b p dataIn oobIn).2 = c) := by
  have haddr : ¬ (b ≥ c.blocks.length ∨ p ≥ PagesPerBlock) := by omega
  have hpage : ∀ pg : NandPage, (c.setPage b p pg).page b p = pg := by
    intro pg
    unfold NandChip.setPage NandChip.page
    rw [getD_set_self _ _ _ _ hb]
    exact getD_set_self _ _ _ _ (by omega)
  unfold NandChip.programPage
  rw [if_neg haddr]
  by_cases hd : checkAnd PageDataSize (c.page b p).data dataIn = true
  · by_cases ho : oobIn.isEmpty = false ∧
        checkAnd OobSize (c.page b p).oob oobIn = false
    · -- OOB given and its physics check fails: WriteError, chip unchanged
      rw [if_neg (by simp [hd]), if_pos (by simp [ho.1, ho.2])]
      refine ⟨?_, by simp, by intro _; rfl⟩
      simp only [show ¬ (NandStatus.WriteError = NandStatus.Success) by simp,
        false_iff]
      intro hcontra
      have := (checkAnd_iff_bytes OobSize (c.page b p).oob oobIn).2
        (hcontra.2 ho.1)
      rw [ho.2] at this
      exact absurd this (by simp)
    · -- both checks pass: Success with the programmed bytes
      have hcase : ¬ (¬ oobIn.isEmpty = true ∧
          ¬ checkAnd OobSize (c.page b p).oob oobIn = true) := by
        intro hcontra
        exact ho ⟨by simp [hcontra.1], by simp [hcontra.2]⟩
      rw [if_neg (by simp [hd]), if_neg hcase]
      refine ⟨?_, ?_, by simp⟩
      · simp only [true_iff]
        constructor
        · exact (checkAnd_iff_bytes _ _ _).1 hd
        · intro hne
          have hoc : checkAnd OobSize (c.page b p).oob oobIn = true := by
            by_contra hcontra
            exact ho ⟨hne, by simpa using hcontra⟩
          exact (checkAnd_iff_bytes _ _ _).1 hoc
      · intro _
        constructor
        · intro i hi
          rw [hpage, progAnd_byte, if_pos hi]
        · intro hne i hi
          rw [hpage]
          simp only [hne, Bool.false_eq_true, if_false]
          rw [progAnd_byte, if_pos hi]
  · -- data physics check fails: WriteError, chip unchanged
    rw [if_pos (by simp [hd])]
    refine ⟨?_, by simp, by intro _; rfl⟩
    simp only [show ¬ (NandStatus.WriteError = NandStatus.Success) by simp,
      false_iff]
    intro hcontra
    have := (checkAnd_iff_bytes PageDataSize (c.page b p).data dataIn).2 hcontra.1
    exact hd this

/-- Witness for C2 at a concrete input: programming bytes `0xCD 0xAB` into
the erased page `(0, 0)` of a fresh 1-block chip succeeds, and the first
stored byte is `0xFF & 0xCD = 0xCD`. -/
theorem programPage_spec_witness :
    ((NandChip.new 1).programPage 0 0 ⟨2, 0xABCD⟩ (zeroBuf 0)).1 = NandStatus.Success ∧
    byteAt (((NandChip.new 1).programPage 0 0 ⟨2, 0xABCD⟩ (zeroBuf 0)).2.page 0 0).data 0 =
      0xCD := by
  have h := programPage_spec (NandChip.new 1) 0 0 ⟨2, 0xABCD⟩ (zeroBuf 0)
    (by decide) (by decide) (by decide)
  have hs : ((NandChip.new 1).programPage 0 0 ⟨2, 0xABCD⟩ (zeroBuf 0)).1 =
      NandStatus.Success := by
    apply h.1.2
    exact ⟨by decide, by intro hcontra; exact absurd hcontra (by decide)⟩
  refine ⟨hs, ?_⟩
  have hbyte := (h.2.1 hs).1 0 (by decide)
  rw [hbyte]
  decide

/-- C7: an FTL read of an LBA absent from the mapping table fills the
caller's buffer entirely with `0xFF` bytes and returns `Success`; the
embedded `Ftl::Read` is a pure function of the FTL state, reflecting that
the C++ method mutates no FTL or NAND state on this path. -/
theorem read_unmapped_spec (f : Ftl) (lba : Nat) (buffer : ByteBuf)
    (h : f.mappingTable.lookup lba = none) :
    f.read lba buffer = (NandStatus.Success, replicateBuf buffer.size 0xFF) ∧
    (replicateBuf buffer.size 0xFF).size = buffer.size ∧
    (∀ i < buffer.size, (replicateBuf buffer.size 0xFF).get i = 0xFF) := by
  refine ⟨?_, rfl, ?_⟩
  · unfold Ftl.read
    rw [h]
  · intro i hi
    show byteAt (allBytes buffer.size 0xFF) i = 0xFF
    rw [byteAt_allBytes buffer.size 0xFF i hi]

/-- Witness for C7 at a concrete input: LBA 12 is unmapped in the freshly
constructed 1-block FTL, and reading it through an 8-byte buffer yields
`Success` and all-`0xFF` bytes. -/
theorem read_unmapped_spec_witness :
    tinyFtl.read 12 (zeroBuf 8) = (NandStatus.Success, replicateBuf 8 0xFF) ∧
    (replicateBuf 8 0xFF).get 3 = 0xFF := by
  have h := read_unmapped_spec tinyFtl 12 (zeroBuf 8) (by decide)
  exact ⟨h.1, h.2.2 3 (by decide)⟩

/-- C9: `NandChip::ReadPage` with a valid address, a large-enough data
buffer and a non-empty OOB buffer smaller than `OobSize` returns
`InvalidAddress`, but the caller's data buffer has already been
overwritten with the page's data: the failure is not atomic with respect
to the caller's output buffers. -/
theorem readPage_partial_overwrite (c : NandChip) (b p : Nat)
    (buffer oobBuffer : ByteBuf)
    (hb : b < c.blocks.length) (hp : p < PagesPerBlock)
    (hbuf : PageDataSize ≤ buffer.size)
    (ho1 : oobBuffer.size ≠ 0) (ho2 : oobBuffer.size < OobSize) :
    c.readPage b p buffer oobBuffer =
      (NandStatus.InvalidAddress,
       ⟨buffer.size, copyBytes (c.page b p).data PageDataSize buffer.val⟩,
       oobBuffer) ∧
    (∀ i < PageDataSize,
      (⟨buffer.size, copyBytes (c.page b p).data PageDataSize buffer.val⟩ : ByteBuf).get i =
        byteAt (c.page b p).data i) := by
  constructor
  · unfold NandChip.readPage
    rw [if_neg (by omega), if_neg (by omega)]
    have hne : (⟨buffer.size, buffer.val⟩ : ByteBuf) = buffer := rfl
    rw [if_neg (by simp [ByteBuf.isEmpty, ho1]), if_pos (by omega)]
  · intro i hi
    show byteAt (copyBytes (c.page b p).data PageDataSize buffer.val) i = _
    rw [copyBytes_byte, if_pos hi]

/-- Witness for C9 at a concrete input: reading page `(0, 0)` of a fresh
1-block chip into a 4096-byte data buffer and a 5-byte OOB buffer returns
`InvalidAddress` with the data buffer overwritten by the page's (erased)
bytes. -/
theorem readPage_partial_overwrite_witness :
    (NandChip.new 1).readPage 0 0 (zeroBuf PageDataSize) (zeroBuf 5) =
      (NandStatus.InvalidAddress,
       ⟨(zeroBuf PageDataSize).size,
        copyBytes ((NandChip.new 1).page 0 0).data PageDataSize (zeroBuf PageDataSize).val⟩,
       zeroBuf 5) ∧
    (⟨(zeroBuf PageDataSize).size,
      copyBytes ((NandChip.new 1).page 0 0).data PageDataSize
        (zeroBuf PageDataSize).val⟩ : ByteBuf).get 0 = 0xFF := by
  have h := readPage_partial_overwrite (NandChip.new 1) 0 0 (zeroBuf PageDataSize)
    (zeroBuf 5) (by decide) (by decide) (by decide) (by decide) (by decide)
  refine ⟨h.1, ?_⟩
  rw [h.2 0 (by decide)]
  decide

/-! ## Controller lemmas and claims C4, C5, C8 -/

theorem or_one_odd (x : Nat) : (x ||| 1) % 2 = 1 := by
  have h2 : (x ||| 1).testBit 0 = true := by
    rw [Nat.testBit_lor]
    simp [Nat.testBit]
  rw [Nat.testBit_zero] at h2
  exact of_decide_eq_true h2

/-- Every `ExecuteCommand` posts exactly one completion: the history gains
one record, at `ACQ + 16 * cq_tail + 12`, whose word is
`((status >> 1) << 17) | 1` for the internal status the dispatch computed,
and the completion tail advances by one. -/
theorem execPost (c : StorageController) (mem : Nat → Nat) :
    ((c.executeCommand mem).1).completions =
      (c.acq + c.cq0tail * 16 + 12,
       ((c.executeStatus mem >>> 1) <<< 17) ||| 1) :: c.completions ∧
    ((c.executeCommand mem).1).cq0tail = (c.cq0tail + 1) % 2 ^ 16 ∧
    ((c.executeCommand mem).1).hasPendingCmd = false ∧
    ((c.executeCommand mem).1).acq = c.acq ∧
    ((c.executeCommand mem).1).busyTicks = c.busyTicks := by
  unfold StorageController.executeCommand StorageController.executeStatus
    StorageController.postCompletion
  by_cases h1 : c.pendingCmd.opcode = 0x01
  · by_cases h2 : (writeF ftlFuel c.ftl c.pendingCmd.dword10
        ⟨PageDataSize, dmaGather mem c.pendingCmd.prp1 (PageDataSize / 4)⟩).1 =
        NandStatus.Success
    · simp [h1, h2]
    · simp [h1, h2]
  · by_cases h3 : c.pendingCmd.opcode = 0x02
    · by_cases h2 : (c.ftl.read c.pendingCmd.dword10 (zeroBuf PageDataSize)).1 =
          NandStatus.Success
      · simp [h1, h3, h2]
      · simp [h1, h3, h2]
    · simp [h1, h3]

/-- A controller whose latency counter shows 5 with a latched command
executes that command exactly at the fifth tick. -/
theorem ticks5_executes (c : StorageController) (mem : Nat → Nat)
    (hb : c.busyTicks = 5) (hp : c.hasPendingCmd = true) :
    ticksRun 5 (c, mem) =
      StorageController.executeCommand { c with busyTicks := 0 } mem := by
  simp only [ticksRun, StorageController.onTick, hb, hp]
  norm_num

/-- C5 counterexample: at the concrete trace `c5Run` (a single doorbell
ring delivering an unknown-opcode command, internal status `0x0001`), the
posted completion word is `1`, whereas the claim requires bits 17+ to
carry the status code `0x0001`, i.e. the word `(0x0001 <<< 17) ||| 1`. -/
theorem c5_counterexample :
    c5Run.1.completions = [(12, 1)] ∧
    ((1 : Nat) >>> 17 ≠ 0x0001) ∧ (1 : Nat) ≠ (0x0001 <<< 17) ||| 1 := by
  refine ⟨by decide, by decide, by decide⟩

/-- C5 (amended): every completion the controller posts is a single word
written at `ACQ + 16 * cq_tail + 12`, whose bit 0 (phase) is 1 and whose
remaining bits carry the internal status code shifted right by one and
then left by 17 (so status `0x0000` and `0x0001` both post word 1, and
status `0x0281` posts `(0x140 << 17) | 1`); the completion tail advances
by one. -/
theorem postedCompletion_format (c : StorageController) (mem : Nat → Nat) :
    ((c.executeCommand mem).1).completions =
      (c.acq + c.cq0tail * 16 + 12,
       ((c.executeStatus mem >>> 1) <<< 17) ||| 1) :: c.completions ∧
    (((c.executeStatus mem >>> 1) <<< 17) ||| 1) % 2 = 1 ∧
    ((c.executeCommand mem).1).cq0tail = (c.cq0tail + 1) % 2 ^ 16 := by
  refine ⟨(execPost c mem).1, or_one_odd _, (execPost c mem).2.1⟩

/-- C8 counterexample: at the concrete trace `c8Reset` (reset written
while a fetched command is pending), the queue registers are cleared but
the pending latch and the latency counter survive, and after 6 further
ticks the command *has* executed (one completion was posted), whereas the
claim requires that a previously fetched but not yet executed command is
not executed after the reset. -/
theorem c8_counterexample :
    ctrlRing1.hasPendingCmd = true ∧
    c8Reset.hasPendingCmd = true ∧ c8Reset.busyTicks = 5 ∧
    c8Reset.sq0head = 0 ∧ c8Reset.sq0tdbl = 0 ∧
    c8Reset.cq0tail = 0 ∧ c8Reset.cq0hdbl = 0 ∧
    c8Run.1.completions.length = 1 ∧ c8Run.1.hasPendingCmd = false := by
  refine ⟨by decide, by decide, by decide, by decide, by decide, by decide,
    by decide, by decide, by decide⟩

/-- C8 (amended): writing `CC` with bit 0 = 1 sets the `CSTS` ready bit;
writing `CC` with bit 0 = 0 clears ready and resets the submission head,
submission tail doorbell, completion tail and completion head doorbell to
zero — but it does *not* drop the pending command latch: the latched
command, the busy counter and the pending flag survive the reset, and a
previously fetched but not yet executed command still executes (posting
its completion) on the following ticks. -/
theorem cc_write_spec (c : StorageController) (mem : Nat → Nat) (v : Nat) :
    (v &&& 1 ≠ 0 →
      c.onWrite mem (c.baseAddr + RegCC) v = { c with cc := v, csts := c.csts ||| 1 }) ∧
    (v &&& 1 = 0 →
      c.onWrite mem (c.baseAddr + RegCC) v =
        { c with cc := v, csts := c.csts &&& ((2 ^ 64 - 1) ^^^ 1),
                 sq0head := 0, sq0tdbl := 0, cq0tail := 0, cq0hdbl := 0 }) ∧
    ((c.onWrite mem (c.baseAddr + RegCC) v).hasPendingCmd = c.hasPendingCmd ∧
     (c.onWrite mem (c.baseAddr + RegCC) v).busyTicks = c.busyTicks ∧
     (c.onWrite mem (c.baseAddr + RegCC) v).pendingCmd = c.pendingCmd) ∧
    (c.busyTicks = 1 → c.hasPendingCmd = true →
      (((c.onWrite mem (c.baseAddr + RegCC) v).onTick mem).1).completions.length =
        c.completions.length + 1) := by
  have hoff : c.baseAddr + RegCC - c.baseAddr = RegCC := by omega
  have hcc : ∀ w : Nat, c.onWrite mem (c.baseAddr + RegCC) w =
      (let c1 := { c with cc := w }
       if c1.cc &&& 1 ≠ 0 then { c1 with csts := c1.csts ||| 1 }
       else
         { c1 with
           csts := c1.csts &&& ((2 ^ 64 - 1) ^^^ 1),
           sq0head := 0, sq0tdbl := 0, cq0tail := 0, cq0hdbl := 0 }) := by
    intro w
    unfold StorageController.onWrite
    rw [hoff]
    simp [RegCC]
  refine ⟨?_, ?_, ?_, ?_⟩
  · intro hv
    rw [hcc v]
    simp [hv, -Nat.and_one_is_mod]
  · intro hv
    rw [hcc v]
    simp [hv, -Nat.and_one_is_mod]
  · rw [hcc v]
    by_cases hv : v &&& 1 ≠ 0 <;> simp [hv, -Nat.and_one_is_mod]
  · intro hbt hpend
    rw [hcc v]
    by_cases hv : v &&& 1 ≠ 0 <;>
      simp only [hv, ite_true, ite_false, not_true, not_false_iff,
        ne_eq, not_not] <;>
    · unfold StorageController.onTick
      simp only [hbt, hpend]
      norm_num
      rw [(execPost _ mem).1]
      simp

/-- Witness for C8 (amended) at a concrete input: resetting `ctrlRing1`
(which holds a fetched command) zeroes the tail doorbell but leaves the
pending latch set. -/
theorem cc_write_spec_witness :
    (ctrlRing1.onWrite zeroMem (ctrlRing1.baseAddr + RegCC) 0).hasPendingCmd = true ∧
    (ctrlRing1.onWrite zeroMem (ctrlRing1.baseAddr + RegCC) 0).sq0tdbl = 0 := by
  have h := cc_write_spec ctrlRing1 zeroMem 0
  constructor
  · rw [h.2.2.1.1]
    decide
  · rw [h.2.1 (by decide)]

/-- The doorbell branch of `StorageController::OnWrite`. -/
theorem onWriteDoorbell (c : StorageController) (mem : Nat → Nat) (v : Nat) :
    c.onWrite mem (c.baseAddr + RegSQ0TDBL) v =
      (if v &&& 0xFFFF ≠ c.sq0head
       then ({ c with sq0tdbl := v &&& 0xFFFF } : StorageController).fetchCommand mem
       else { c with sq0tdbl := v &&& 0xFFFF }) := by
  have hoff : c.baseAddr + RegSQ0TDBL - c.baseAddr = RegSQ0TDBL := by omega
  unfold StorageController.onWrite
  rw [hoff]
  norm_num [RegCC, RegASQ, RegACQ, RegSQ0TDBL]

/-- `FetchCommand` on an idle controller: latch the decoded entry, advance
the head, arm the 5-tick counter. -/
theorem fetchCommand_idle (c : StorageController) (mem : Nat → Nat)
    (h : c.busyTicks = 0) :
    c.fetchCommand mem =
      { c with
        pendingCmd :=
          { opcode := busReadWord mem (c.asq + c.sq0head * 64) &&& 0xFF,
            prp1 := busReadWord mem (c.asq + c.sq0head * 64 + 24),
            dword10 := busReadWord mem (c.asq + c.sq0head * 64 + 40) % 2 ^ 32,
            dword12 := busReadWord mem (c.asq + c.sq0head * 64 + 48) % 2 ^ 32 },
        sq0head := (c.sq0head + 1) % 2 ^ 16,
        hasPendingCmd := true,
        busyTicks := 5 } := by
  unfold StorageController.fetchCommand
  rw [if_neg (by omega)]

/-- C4 counterexample: in the concrete trace `c4Run`, the submission tail
doorbell is incremented twice (to 1 and then, while the controller is
busy, to 2); after 12 ticks the engine is idle again but exactly *one*
completion was ever posted, whereas the claim requires one completion per
doorbell increment. -/
theorem c4_counterexample :
    ctrlRing1.sq0tdbl = 1 ∧ ctrlRing2.sq0tdbl = 2 ∧
    c4Run.1.busyTicks = 0 ∧ c4Run.1.hasPendingCmd = false ∧
    c4Run.1.completions.length = 1 := by
  refine ⟨by decide, by decide, by decide, by decide, by decide⟩

/-- C4 (amended): a doorbell write received while the controller is idle
with a new tail ≠ head fetches one command and, five ticks later, exactly
one completion has been posted; its internal status is `0x0000` iff the
dispatched FTL call succeeded (the DMA transfer is attempted
unconditionally over the full `PageDataSize` and does not affect the
status).  A doorbell write received while the controller is busy only
stores the new tail value: no command is fetched and no completion is
ever posted for that increment. -/
theorem doorbell_spec :
    (∀ (c : StorageController) (mem : Nat → Nat) (v : Nat),
      c.busyTicks = 0 →
      v &&& 0xFFFF ≠ c.sq0head →
      (c.onWrite mem (c.baseAddr + RegSQ0TDBL) v).completions = c.completions ∧
      (ticksRun 5 (c.onWrite mem (c.baseAddr + RegSQ0TDBL) v, mem)).1.completions.length =
        c.completions.length + 1 ∧
      (ticksRun 5 (c.onWrite mem (c.baseAddr + RegSQ0TDBL) v, mem)).1.completions.head? =
        some (c.acq + c.cq0tail * 16 + 12,
          ((StorageController.executeStatus
              (c.onWrite mem (c.baseAddr + RegSQ0TDBL) v) mem >>> 1) <<< 17) ||| 1) ∧
      (StorageController.executeStatus (c.onWrite mem (c.baseAddr + RegSQ0TDBL) v) mem = 0 ↔
        (((c.onWrite mem (c.baseAddr + RegSQ0TDBL) v).pendingCmd.opcode = 0x01 ∧
          (writeF ftlFuel c.ftl
            (c.onWrite mem (c.baseAddr + RegSQ0TDBL) v).pendingCmd.dword10
            ⟨PageDataSize,
             dmaGather mem (c.onWrite mem (c.baseAddr + RegSQ0TDBL) v).pendingCmd.prp1
               (PageDataSize / 4)⟩).1 = NandStatus.Success) ∨
         ((c.onWrite mem (c.baseAddr + RegSQ0TDBL) v).pendingCmd.opcode = 0x02 ∧
          (c.ftl.read (c.onWrite mem (c.baseAddr + RegSQ0TDBL) v).pendingCmd.dword10
            (zeroBuf PageDataSize)).1 = NandStatus.Success)))) ∧
    (∀ (c : StorageController) (mem : Nat → Nat) (v : Nat),
      0 < c.busyTicks →
      c.onWrite mem (c.baseAddr + RegSQ0TDBL) v = { c with sq0tdbl := v &&& 0xFFFF }) := by
  constructor
  · intro c mem v hidle hnew
    rw [onWriteDoorbell, if_pos (by simpa using hnew),
      fetchCommand_idle _ _ (by simpa using hidle)]
    refine ⟨rfl, ?_, ?_, ?_⟩
    · rw [ticks5_executes _ _ rfl rfl, (execPost _ _).1]
      rfl
    · rw [ticks5_executes _ _ rfl rfl, (execPost _ _).1]
      rfl
    · unfold StorageController.executeStatus
      by_cases h1 : busReadWord mem (c.asq + c.sq0head * 64) &&& 0xFF = 0x01
      · simp only [h1]
        norm_num
      · by_cases h2 : busReadWord mem (c.asq + c.sq0head * 64) &&& 0xFF = 0x02
        · simp only [h1, h2]
          norm_num
        · simp only [h1, h2]
          norm_num
  · intro c mem v hbusy
    rw [onWriteDoorbell]
    by_cases h : v &&& 0xFFFF ≠ c.sq0head
    · rw [if_pos h]
      unfold StorageController.fetchCommand
      rw [if_pos (by simpa using hbusy)]
    · rw [if_neg h]

/-- Witness for C4 (amended) at a concrete input: ringing the doorbell of
the idle enabled controller posts exactly one completion after 5 ticks. -/
theorem doorbell_spec_witness :
    (ticksRun 5 (ctrlEnabled.onWrite zeroMem (ctrlEnabled.baseAddr + RegSQ0TDBL) 1,
      zeroMem)).1.completions.length = ctrlEnabled.completions.length + 1 :=
  (doorbell_spec.1 ctrlEnabled zeroMem 1 (by decide) (by decide)).2.1

/-! ## Claims C1 and C3: mount and GC failures on the concrete traces -/

set_option maxRecDepth 100000 in
/-- C1 evaluated at the failing input: every write of the 65-write trace
succeeded; before the restart LBA 5 maps to PBA 64 (block 1, its most
recent copy, payload `0xDD`); after destroying the FTL and mounting a new
one over the same NAND, the descending OOB scan lets the *older* copy in
block 0 overwrite the newer mapping, so LBA 5 maps to PBA 0 and reading it
returns the stale `0xCC` payload instead of the most recent `0xDD`. -/
theorem c1_mount_returns_stale :
    c1First.1 = NandStatus.Success ∧
    c1Fill.1 = true ∧
    c1Last.1 = NandStatus.Success ∧
    c1Last.2.mappingTable.lookup 5 = some 64 ∧
    c1Remounted.mappingTable.lookup 5 = some 0 ∧
    (c1Remounted.read 5 (zeroBuf PageDataSize)).1 = NandStatus.Success ∧
    (c1Remounted.read 5 (zeroBuf PageDataSize)).2 = payConst 0xCC ∧
    payConst 0xCC ≠ payConst 0xDD := by
  refine ⟨by decide, by decide, by decide, by decide, by decide, by decide,
    by decide, by decide⟩

set_option maxRecDepth 100000 in
/-- C3 evaluated at the failing input: in the post-remount trace `c3Full`
(a reachable state: 65 writes, restart, 63 more writes), LBA 0 is mapped
to PBA 0 and reads back its `0xAA` payload; the garbage-collection pass
`c3Gc` then selects block 0 as victim (mount left its
`ValidPageBitmap` = 0, so its popcount 0 beats block 1), stages nothing,
erases the block and reports success — after the pass LBA 0 is still
mapped but reading it returns erased `0xFF` bytes. -/
theorem c3_gc_loses_payload :
    c3Fill.1 = true ∧
    c3PreShutdown.1 = NandStatus.Success ∧
    c3Full.1 = true ∧
    c3Full.2.mappingTable.lookup 0 = some 0 ∧
    (c3Full.2.read 0 (zeroBuf PageDataSize)).2 = payConst 0xAA ∧
    c3Gc.1 = true ∧
    c3Gc.2.mappingTable.lookup 0 = some 0 ∧
    (c3Gc.2.read 0 (zeroBuf PageDataSize)).2 = replicateBuf PageDataSize 0xFF ∧
    replicateBuf PageDataSize 0xFF ≠ payConst 0xAA := by
  refine ⟨by decide, by decide, by decide, by decide, by decide, by decide,
    by decide, by decide, by decide⟩

/-! ## Claim C6: a failed program leaves the mapping untouched -/

/-- C6: when the NAND program issued by `Ftl::Write` returns a non-success
status, the FTL returns that same status and the whole mapping table —
in particular the entry for the written LBA — is exactly what it was
before the call.  `f2` names the FTL state at the moment of the program
call (after the invalidation and allocate-if-needed steps); the
disjunctive hypothesis pins the write to a path that does not run garbage
collection, which is the only way the program call can fail (a program
after a GC-backed allocation always targets a freshly erased page). -/
theorem write_program_failure (fuel : Nat) (f : Ftl) (lba : Nat) (data : ByteBuf)
    (f2 : Ftl) (st : NandStatus) (nand1 : NandChip)
    (hsize : data.size = PageDataSize)
    (hpath : f.currentActiveBlock ≠ usizeMax ∨ f.freeList ≠ [])
    (hf2 : f2 = ensureActiveF fuel (f.invalidateOld lba))
    (hact : f2.currentActiveBlock ≠ usizeMax)
    (hprog : f2.nand.programPage f2.currentActiveBlock f2.currentPageOffset data
       (writeOob lba) = (st, nand1))
    (hfail : st ≠ NandStatus.Success) :
    writeF (fuel + 1) f lba data = (st, { f2 with nand := nand1 }) ∧
    ({ f2 with nand := nand1 } : Ftl).mappingTable = f.mappingTable := by
  have hbody : writeF (fuel + 1) f lba data =
      (if (ensureActiveF fuel (f.invalidateOld lba)).currentActiveBlock = usizeMax
       then (NandStatus.WriteError, ensureActiveF fuel (f.invalidateOld lba))
       else programCommit (ensureActiveF fuel (f.invalidateOld lba)) lba data) := by
    unfold writeF ensureActiveF
    rw [if_neg (by simp [hsize])]
  have hmap2 : ({ f2 with nand := nand1 } : Ftl).mappingTable = f.mappingTable := by
    show f2.mappingTable = f.mappingTable
    rw [hf2]
    rw [ensureActiveF_mappingTable fuel (f.invalidateOld lba)
      (by
        rcases hpath with h | h
        · exact Or.inl (by rw [(invalidateOld_fields f lba).2.2.1]; exact h)
        · exact Or.inr (by rw [(invalidateOld_fields f lba).2.1]; exact h))]
    exact (invalidateOld_fields f lba).1
  refine ⟨?_, hmap2⟩
  rw [hbody, ← hf2, if_neg hact]
  unfold programCommit
  rw [hprog]
  cases st with
  | Success => exact absurd rfl hfail
  | WriteError => rfl
  | InvalidAddress => rfl

/-- Witness for C6 at a concrete input: writing LBA 5 to `c6Ftl` (whose
frontier sits on a page already programmed to all-zero bytes) makes the
NAND program fail with `WriteError`; the FTL returns `WriteError` and the
mapping table is unchanged. -/
theorem write_program_failure_witness :
    c6Ftl.write 5 (payConst 0x01) = (c6Prog.1, { c6Stage with nand := c6Prog.2 }) ∧
    ({ c6Stage with nand := c6Prog.2 } : Ftl).mappingTable = c6Ftl.mappingTable ∧
    c6Prog.1 = NandStatus.WriteError := by
  have h := write_program_failure 15 c6Ftl 5 (payConst 0x01) c6Stage c6Prog.1 c6Prog.2
    (by decide) (Or.inl (by decide)) rfl (by decide) rfl (by decide)
  exact ⟨h.1, h.2, by decide⟩

/-! ## Claim C10: the active-frontier invariant -/

theorem getD_withBlockInfo_state (f : Ftl) (i j : Nat) (g : BlockInfo → BlockInfo)
    (hg : ∀ bi, (g bi).state = bi.state) :
    ((f.withBlockInfo i g).blockTable.getD j default).state =
      (f.blockTable.getD j default).state := by
  unfold Ftl.withBlockInfo
  by_cases h : i = j
  · subst h
    by_cases hl : i < f.blockTable.length
    · rw [getD_set_self _ _ _ _ hl, hg]
    · rw [List.getD_eq_getElem?_getD, List.getElem?_set, if_pos rfl, if_neg hl,
        List.getD_eq_getElem?_getD, List.getElem?_eq_none (by omega)]
  · rw [getD_set_ne _ _ _ _ _ h]

theorem getD_withBlockInfo_ne (f : Ftl) (i j : Nat) (g : BlockInfo → BlockInfo)
    (h : i ≠ j) :
    (f.withBlockInfo i g).blockTable.getD j default = f.blockTable.getD j default := by
  unfold Ftl.withBlockInfo
  rw [getD_set_ne _ _ _ _ _ h]

theorem inv_invalidateOld (f : Ftl) (lba : Nat) (h : FtlInv f) :
    FtlInv (f.invalidateOld lba) := by
  obtain ⟨h1, h2, h3, h4⟩ := h
  obtain ⟨hm, hf, ha, ho, hn, ht, hl⟩ := invalidateOld_fields f lba
  refine ⟨by rw [hl, ht, h1], by rw [ht]; exact h2, ?_, ?_⟩
  · intro b hb
    rw [hf] at hb
    rw [ht]
    exact h3 b hb
  · intro hne
    rw [ha] at hne
    obtain ⟨hlt, hst⟩ := h4 hne
    refine ⟨by rw [ho]; exact hlt, ?_⟩
    rw [ha]
    have hstate : ((f.invalidateOld lba).blockTable.getD f.currentActiveBlock
        default).state = (f.blockTable.getD f.currentActiveBlock default).state := by
      unfold Ftl.invalidateOld
      rcases f.mappingTable.lookup lba with _ | oldPba
      · rfl
      · exact getD_withBlockInfo_state _ _ _ _ (fun bi => rfl)
    rw [hstate]
    exact hst

theorem popFree_active (f : Ftl) (hne : f.freeList ≠ []) :
    (f.popFree).2.currentActiveBlock = (f.popFree).1 := by
  unfold Ftl.popFree
  cases h : f.freeList
  · exact absurd h hne
  · rfl

theorem inv_popFree_weak (f : Ftl)
    (hlen : f.blockTable.length = f.totalBlocks)
    (htb : f.totalBlocks ≤ usizeMax)
    (hfree : ∀ b ∈ f.freeList, b < f.totalBlocks)
    (hne : f.freeList ≠ []) :
    FtlInv (f.popFree).2 := by
  rcases h : f.freeList with _ | ⟨nb, rest⟩
  · exact absurd h hne
  · have hnb : nb < f.totalBlocks := hfree nb (by rw [h]; exact List.mem_cons_self _ _)
    have hres : (f.popFree).2 =
        { nand := f.nand, totalBlocks := f.totalBlocks, mappingTable := f.mappingTable,
          blockTable := f.blockTable.set nb
            { f.blockTable.getD nb default with
              state := BlockState.Active, validPageBitmap := 0 },
          freeList := rest, currentActiveBlock := nb, currentPageOffset := 0 } := by
      unfold Ftl.popFree Ftl.withBlockInfo
      rw [h]
    rw [hres]
    refine ⟨?_, htb, ?_, ?_⟩
    · simpa [List.length_set] using hlen
    · intro b hb
      exact hfree b (by rw [h]; exact List.mem_cons_of_mem _ hb)
    · intro _
      refine ⟨by norm_num [PagesPerBlock], ?_⟩
      show ((f.blockTable.set nb
        { f.blockTable.getD nb default with
          state := BlockState.Active, validPageBitmap := 0 }).getD nb default).state =
        BlockState.Active
      rw [getD_set_self _ _ _ _ (by omega)]

theorem inv_programCommit (f : Ftl) (lba : Nat) (data : ByteBuf)
    (h : FtlInv f) (hact : f.currentActiveBlock ≠ usizeMax) :
    FtlInv (programCommit f lba data).2 := by
  obtain ⟨h1, h2, h3, h4⟩ := h
  obtain ⟨hlt, hst⟩ := h4 hact
  unfold programCommit
  rcases hp : f.nand.programPage f.currentActiveBlock f.currentPageOffset data
      (writeOob lba) with ⟨st, nand1⟩
  cases st with
  | Success =>
    by_cases hfull : f.currentPageOffset + 1 ≥ 64
    · simp only [ge_iff_le, hfull, if_pos]
      refine ⟨?_, h2, ?_, ?_⟩
      · simp [Ftl.withBlockInfo, List.length_set, h1]
      · intro b hb
        simp only [Ftl.withBlockInfo] at hb
        exact h3 b hb
      · intro hne
        exact absurd rfl hne
    · simp only [ge_iff_le, hfull, if_neg, if_false]
      have hoff : f.currentPageOffset + 1 < 64 := by omega
      refine ⟨?_, h2, ?_, ?_⟩
      · simp [Ftl.withBlockInfo, List.length_set, h1]
      · intro b hb
        simp only [Ftl.withBlockInfo] at hb
        exact h3 b hb
      · intro _
        refine ⟨hoff, ?_⟩
        have hs : ((({ f with nand := nand1 } : Ftl).withBlockInfo f.currentActiveBlock
            fun bi => { bi with validPageBitmap :=
              bi.validPageBitmap ||| (1 <<< f.currentPageOffset) }).blockTable.getD
            f.currentActiveBlock default).state = BlockState.Active := by
          rw [getD_withBlockInfo_state ({ f with nand := nand1 } : Ftl)
            f.currentActiveBlock f.currentActiveBlock
            (fun bi => { bi with validPageBitmap :=
              bi.validPageBitmap ||| (1 <<< f.currentPageOffset) })
            (fun bi => rfl)]
          exact hst
        exact hs
  | WriteError => exact ⟨h1, h2, h3, fun hne => ⟨(h4 hne).1, (h4 hne).2⟩⟩
  | InvalidAddress => exact ⟨h1, h2, h3, fun hne => ⟨(h4 hne).1, (h4 hne).2⟩⟩

theorem gcSelectVictim_cases (f : Ftl) :
    gcSelectVictim f = usizeMax ∨
    (gcSelectVictim f < f.totalBlocks ∧ gcSelectVictim f ≠ f.currentActiveBlock) := by
  unfold gcSelectVictim
  have haux : ∀ (l : List Nat) (acc : Nat × Nat),
      (∀ x ∈ l, x < f.totalBlocks) →
      (acc.1 = usizeMax ∨ (acc.1 < f.totalBlocks ∧ acc.1 ≠ f.currentActiveBlock)) →
      ((l.foldl (fun acc i =>
          if i = f.currentActiveBlock then acc
          else
            let info := f.blockTable.getD i default
            if info.state = BlockState.Free ∨ info.state = BlockState.Bad then acc
            else
              let validCount := popcount info.validPageBitmap
              if validCount < acc.2 then (i, validCount) else acc) acc).1 = usizeMax ∨
       ((l.foldl (fun acc i =>
          if i = f.currentActiveBlock then acc
          else
            let info := f.blockTable.getD i default
            if info.state = BlockState.Free ∨ info.state = BlockState.Bad then acc
            else
              let validCount := popcount info.validPageBitmap
              if validCount < acc.2 then (i, validCount) else acc) acc).1 < f.totalBlocks ∧
        (l.foldl (fun acc i =>
          if i = f.currentActiveBlock then acc
          else
            let info := f.blockTable.getD i default
            if info.state = BlockState.Free ∨ info.state = BlockState.Bad then acc
            else
              let validCount := popcount info.validPageBitmap
              if validCount < acc.2 then (i, validCount) else acc) acc).1 ≠ f.currentActiveBlock)) := by
    intro l
    induction l with
    | nil => intro acc _ hacc; exact hacc
    | cons x xs ih =>
      intro acc hmem hacc
      apply ih
      · intro y hy
        exact hmem y (List.mem_cons_of_mem _ hy)
      · by_cases hx : x = f.currentActiveBlock
        · simpa only [if_pos hx] using hacc
        · by_cases hs : (f.blockTable.getD x default).state = BlockState.Free ∨
              (f.blockTable.getD x default).state = BlockState.Bad
          · simpa only [if_neg hx, if_pos hs] using hacc
          · by_cases hc : popcount (f.blockTable.getD x default).validPageBitmap < acc.2
            · simp only [if_neg hx, if_neg hs, if_pos hc]
              exact Or.inr ⟨hmem x (List.mem_cons_self _ _), hx⟩
            · simpa only [if_neg hx, if_neg hs, if_neg hc] using hacc
  exact haux (List.range f.totalBlocks) (usizeMax, 65)
    (fun x hx => List.mem_range.mp hx) (Or.inl rfl)

theorem inv_setActive_max (g : Ftl) (h : FtlInv g) :
    FtlInv { g with currentActiveBlock := usizeMax } := by
  obtain ⟨h1, h2, h3, _⟩ := h
  exact ⟨h1, h2, h3, fun hne => absurd rfl hne⟩

theorem inv_mutual (fuel : Nat) :
    (∀ f lba data, FtlInv f → FtlInv (writeF fuel f lba data).2) ∧
    (∀ f, FtlInv f →
      FtlInv { (allocF fuel f).2 with currentActiveBlock := (allocF fuel f).1 }) ∧
    (∀ f, FtlInv f → FtlInv (gcF fuel f).2) := by
  induction fuel with
  | zero =>
    refine ⟨fun f lba data h => h, fun f h => ?_, fun f h => h⟩
    exact inv_setActive_max f h
  | succ fuel ih =>
    obtain ⟨ihw, iha, ihg⟩ := ih
    refine ⟨?_, ?_, ?_⟩
    · -- writeF (fuel + 1)
      intro f lba data hf
      by_cases hsz : data.size ≠ PageDataSize
      · have hstep : writeF (fuel + 1) f lba data = (NandStatus.WriteError, f) := by
          simp only [writeF, if_pos hsz]
        rw [hstep]
        exact hf
      · have hstep : writeF (fuel + 1) f lba data =
            (if (if (f.invalidateOld lba).currentActiveBlock = usizeMax then
                   { (allocF fuel (f.invalidateOld lba)).2 with
                     currentActiveBlock := (allocF fuel (f.invalidateOld lba)).1 }
                 else f.invalidateOld lba).currentActiveBlock = usizeMax then
               (NandStatus.WriteError,
                if (f.invalidateOld lba).currentActiveBlock = usizeMax then
                  { (allocF fuel (f.invalidateOld lba)).2 with
                    currentActiveBlock := (allocF fuel (f.invalidateOld lba)).1 }
                else f.invalidateOld lba)
             else
               programCommit
                 (if (f.invalidateOld lba).currentActiveBlock = usizeMax then
                    { (allocF fuel (f.invalidateOld lba)).2 with
                      currentActiveBlock := (allocF fuel (f.invalidateOld lba)).1 }
                  else f.invalidateOld lba) lba data) := by
          simp only [writeF, if_neg hsz]
        rw [hstep]
        have hf1 : FtlInv (f.invalidateOld lba) := inv_invalidateOld f lba hf
        by_cases ha : (f.invalidateOld lba).currentActiveBlock = usizeMax
        · rw [if_pos ha]
          have hf2 : FtlInv { (allocF fuel (f.invalidateOld lba)).2 with
              currentActiveBlock := (allocF fuel (f.invalidateOld lba)).1 } :=
            iha _ hf1
          by_cases hb : ({ (allocF fuel (f.invalidateOld lba)).2 with
              currentActiveBlock := (allocF fuel (f.invalidateOld lba)).1 } :
              Ftl).currentActiveBlock = usizeMax
          · rw [if_pos hb]
            exact hf2
          · rw [if_neg hb]
            exact inv_programCommit _ lba data hf2 hb
        · rw [if_neg ha, if_neg ha]
          exact inv_programCommit _ lba data hf1 ha
    · -- allocF (fuel + 1)
      intro f hf
      obtain ⟨h1, h2, h3, h4⟩ := hf
      have hstep : allocF (fuel + 1) f =
          (if f.freeList.isEmpty then
             if ¬ (gcF fuel f).1 then (usizeMax, (gcF fuel f).2)
             else if (gcF fuel f).2.freeList.isEmpty then (usizeMax, (gcF fuel f).2)
             else (gcF fuel f).2.popFree
           else f.popFree) := by
        simp only [allocF]
      rw [hstep]
      by_cases he : f.freeList.isEmpty
      · rw [if_pos he]
        have hg : FtlInv (gcF fuel f).2 := ihg f ⟨h1, h2, h3, h4⟩
        by_cases hr : (gcF fuel f).1 = true
        · rw [if_neg (not_not_intro hr)]
          by_cases he2 : (gcF fuel f).2.freeList.isEmpty
          · rw [if_pos he2]
            exact inv_setActive_max _ hg
          · rw [if_neg he2]
            have hne : (gcF fuel f).2.freeList ≠ [] := by
              intro hnil
              rw [List.isEmpty_iff] at he2
              exact he2 hnil
            obtain ⟨g1, g2, g3, _⟩ := hg
            have hpf := inv_popFree_weak (gcF fuel f).2 g1 g2 g3 hne
            rw [← popFree_active _ hne]
            exact hpf
        · rw [if_pos hr]
          exact inv_setActive_max _ hg
      · rw [if_neg he]
        have hne : f.freeList ≠ [] := by
          intro hnil
          rw [List.isEmpty_iff] at he
          exact he hnil
        have hpf := inv_popFree_weak f h1 h2 h3 hne
        rw [← popFree_active _ hne]
        exact hpf
    · -- gcF (fuel + 1)
      intro f hf
      obtain ⟨h1, h2, h3, h4⟩ := hf
      have hstep : gcF (fuel + 1) f =
          (if gcSelectVictim f = usizeMax then (false, f)
           else
             match f.nand.eraseBlock (gcSelectVictim f) with
             | (NandStatus.Success, nand1) =>
               (gcStagePages f (gcSelectVictim f)).foldl
                 (fun acc entry =>
                   if ¬ acc.1 then acc
                   else
                     match writeF fuel acc.2 entry.1 entry.2 with
                     | (NandStatus.Success, f2) => (true, f2)
                     | (_, f2) => (false, f2))
                 (true,
                  { ({ f with nand := nand1 }.withBlockInfo (gcSelectVictim f) fun bi =>
                      { state := BlockState.Free, eraseCount := bi.eraseCount + 1,
                        validPageBitmap := 0 }) with
                    freeList := gcSelectVictim f :: f.freeList })
             | _ => (false, f.withBlockInfo (gcSelectVictim f) fun bi =>
                 { bi with state := BlockState.Bad })) := by
        simp only [gcF]
      rw [hstep]
      by_cases hv : gcSelectVictim f = usizeMax
      · rw [if_pos hv]
        exact ⟨h1, h2, h3, h4⟩
      · rw [if_neg hv]
        rcases gcSelectVictim_cases f with hcase | ⟨hvlt, hvne⟩
        · exact absurd hcase hv
        · rcases he : f.nand.eraseBlock (gcSelectVictim f) with ⟨st, nand1⟩
          cases st with
          | Success =>
            have hf1 : FtlInv
                { ({ f with nand := nand1 }.withBlockInfo (gcSelectVictim f) fun bi =>
                    { state := BlockState.Free, eraseCount := bi.eraseCount + 1,
                      validPageBitmap := 0 }) with
                  freeList := gcSelectVictim f :: f.freeList } := by
              refine ⟨?_, h2, ?_, ?_⟩
              · show (({ f with nand := nand1 } : Ftl).withBlockInfo (gcSelectVictim f)
                  fun bi =>
                    { state := BlockState.Free, eraseCount := bi.eraseCount + 1,
                      validPageBitmap := 0 }).blockTable.length = f.totalBlocks
                unfold Ftl.withBlockInfo
                rw [List.length_set]
                exact h1
              · intro b hb
                rcases List.mem_cons.mp hb with rfl | hb2
                · exact hvlt
                · exact h3 b hb2
              · intro hne
                obtain ⟨ho, hs⟩ := h4 hne
                refine ⟨ho, ?_⟩
                have hgd := getD_withBlockInfo_ne ({ f with nand := nand1 } : Ftl)
                  (gcSelectVictim f) f.currentActiveBlock
                  (fun bi =>
                    { state := BlockState.Free, eraseCount := bi.eraseCount + 1,
                      validPageBitmap := 0 }) hvne
                show ((({ f with nand := nand1 } : Ftl).withBlockInfo (gcSelectVictim f)
                  fun bi =>
                    { state := BlockState.Free, eraseCount := bi.eraseCount + 1,
                      validPageBitmap := 0 }).blockTable.getD
                  f.currentActiveBlock default).state = BlockState.Active
                rw [hgd]
                exact hs
            have hfold : ∀ (l : List (Nat × ByteBuf)) (acc : Bool × Ftl), FtlInv acc.2 →
                FtlInv ((l.foldl
                  (fun acc entry =>
                    if ¬ acc.1 then acc
                    else
                      match writeF fuel acc.2 entry.1 entry.2 with
                      | (NandStatus.Success, f2) => (true, f2)
                      | (_, f2) => (false, f2)) acc)).2 := by
              intro l
              induction l with
              | nil => intro acc hacc; exact hacc
              | cons e es ihe =>
                intro acc hacc
                rw [List.foldl_cons]
                apply ihe
                by_cases hb : acc.1 = true
                · rw [if_neg (not_not_intro hb)]
                  rcases hw : writeF fuel acc.2 e.1 e.2 with ⟨ws, wf⟩
                  have hwf : FtlInv wf := by
                    have h0 := ihw acc.2 e.1 e.2 hacc
                    rw [hw] at h0
                    exact h0
                  cases ws with
                  | Success => exact hwf
                  | WriteError => exact hwf
                  | InvalidAddress => exact hwf
                · rw [if_pos hb]
                  exact hacc
            exact hfold _ _ hf1
          | WriteError =>
            refine ⟨?_, h2, ?_, ?_⟩
            · show (f.withBlockInfo (gcSelectVictim f)
                fun bi => { bi with state := BlockState.Bad }).blockTable.length =
                f.totalBlocks
              unfold Ftl.withBlockInfo
              rw [List.length_set]
              exact h1
            · intro b hb
              exact h3 b hb
            · intro hne
              obtain ⟨ho, hs⟩ := h4 hne
              refine ⟨ho, ?_⟩
              have hgd := getD_withBlockInfo_ne f (gcSelectVictim f) f.currentActiveBlock
                (fun bi => { bi with state := BlockState.Bad }) hvne
              show ((f.withBlockInfo (gcSelectVictim f)
                fun bi => { bi with state := BlockState.Bad }).blockTable.getD
                f.currentActiveBlock default).state = BlockState.Active
              rw [hgd]
              exact hs
          | InvalidAddress =>
            refine ⟨?_, h2, ?_, ?_⟩
            · show (f.withBlockInfo (gcSelectVictim f)
                fun bi => { bi with state := BlockState.Bad }).blockTable.length =
                f.totalBlocks
              unfold Ftl.withBlockInfo
              rw [List.length_set]
              exact h1
            · intro b hb
              exact h3 b hb
            · intro hne
              obtain ⟨ho, hs⟩ := h4 hne
              refine ⟨ho, ?_⟩
              have hgd := getD_withBlockInfo_ne f (gcSelectVictim f) f.currentActiveBlock
                (fun bi => { bi with state := BlockState.Bad }) hvne
              show ((f.withBlockInfo (gcSelectVictim f)
                fun bi => { bi with state := BlockState.Bad }).blockTable.getD
                f.currentActiveBlock default).state = BlockState.Active
              rw [hgd]
              exact hs

theorem programCommit_full_eq (f : Ftl) (lba : Nat) (data : ByteBuf) (nand1 : NandChip)
    (hp : f.nand.programPage f.currentActiveBlock f.currentPageOffset data (writeOob lba)
      = (NandStatus.Success, nand1))
    (h64 : f.currentPageOffset + 1 ≥ 64) :
    programCommit f lba data =
      (NandStatus.Success,
       { (programF4 f lba nand1).withBlockInfo f.currentActiveBlock
           (fun bi => { bi with state := BlockState.Full }) with
         currentActiveBlock := usizeMax }) := by
  unfold programCommit
  rw [hp]
  show (if f.currentPageOffset + 1 ≥ 64 then _ else _) = _
  rw [if_pos h64]
  rfl

theorem programCommit_fullClose (f : Ftl) (lba : Nat) (data : ByteBuf)
    (hlen : f.blockTable.length = f.totalBlocks)
    (hbound : f.currentActiveBlock < f.totalBlocks)
    (hoff : f.currentPageOffset = 63)
    (hsucc : (programCommit f lba data).1 = NandStatus.Success) :
    (programCommit f lba data).2.currentActiveBlock = usizeMax ∧
    ((programCommit f lba data).2.blockTable.getD f.currentActiveBlock default).state
      = BlockState.Full := by
  rcases hp : f.nand.programPage f.currentActiveBlock f.currentPageOffset data
      (writeOob lba) with ⟨pst, nand1⟩
  cases pst with
  | WriteError =>
    have hw : (programCommit f lba data).1 = NandStatus.WriteError := by
      unfold programCommit
      rw [hp]
    rw [hw] at hsucc
    exact NandStatus.noConfusion hsucc
  | InvalidAddress =>
    have hw : (programCommit f lba data).1 = NandStatus.InvalidAddress := by
      unfold programCommit
      rw [hp]
    rw [hw] at hsucc
    exact NandStatus.noConfusion hsucc
  | Success =>
    have h64 : f.currentPageOffset + 1 ≥ 64 := by omega
    rw [programCommit_full_eq f lba data nand1 hp h64]
    refine ⟨rfl, ?_⟩
    have hlt2 : f.currentActiveBlock < (programF4 f lba nand1).blockTable.length := by
      simp only [programF4, Ftl.withBlockInfo, List.length_set]
      omega
    show (((programF4 f lba nand1).withBlockInfo f.currentActiveBlock
      (fun bi => { bi with state := BlockState.Full })).blockTable.getD
      f.currentActiveBlock default).state = BlockState.Full
    unfold Ftl.withBlockInfo
    rw [getD_set_self _ _ _ _ hlt2]

set_option maxRecDepth 100000 in
/-- C10 counterexample to the construction clause: constructing an FTL over
a one-block chip whose 64 pages all carry valid FTL metadata (no free block,
no empty frontier page) leaves `m_CurrentActiveBlock` at its member
initialiser `0`, which is not the sentinel, while block 0's state is `Full`,
not `Active` — the claimed invariant does not hold right after
construction. -/
theorem c10_construction_violates :
    c10Ftl.currentActiveBlock = 0 ∧
    c10Ftl.currentActiveBlock ≠ usizeMax ∧
    (c10Ftl.blockTable.getD c10Ftl.currentActiveBlock default).state = BlockState.Full ∧
    ¬ FtlInv c10Ftl := by
  refine ⟨by decide, by decide, by decide, fun h => ?_⟩
  have h4 := (h.2.2.2 (by decide)).2
  exact absurd h4 (by decide)

/-- **C10** (amended).  The frontier invariant `FtlInv` — whenever the
active block is not the sentinel `usizeMax`, the page offset is strictly
below `PagesPerBlock` and the active block's state is `Active` — is
preserved by `Ftl::Write`, by `Ftl::AllocateNewActiveBlock` as `Write` uses
it (assigning the returned block id to `m_CurrentActiveBlock`), and by
`Ftl::GarbageCollect`; moreover a successful write from offset 63 (the last
page) marks the active block `Full` and clears the frontier to the
sentinel.  The construction clause of the original claim is false
(`c10_construction_violates`): the constructor leaves
`m_CurrentActiveBlock = 0` when mount finds neither a free block nor an
empty frontier page. -/
theorem frontier_invariant :
    (∀ fuel f lba data, FtlInv f → FtlInv (writeF fuel f lba data).2) ∧
    (∀ fuel f, FtlInv f →
      FtlInv { (allocF fuel f).2 with currentActiveBlock := (allocF fuel f).1 }) ∧
    (∀ fuel f, FtlInv f → FtlInv (gcF fuel f).2) ∧
    (∀ fuel f lba data, FtlInv f →
      f.currentActiveBlock ≠ usizeMax → f.currentActiveBlock < f.totalBlocks →
      f.currentPageOffset = 63 → data.size = PageDataSize →
      (writeF (fuel + 1) f lba data).1 = NandStatus.Success →
      (writeF (fuel + 1) f lba data).2.currentActiveBlock = usizeMax ∧
      ((writeF (fuel + 1) f lba data).2.blockTable.getD f.currentActiveBlock
        default).state = BlockState.Full) := by
  refine ⟨fun fuel f lba data h => (inv_mutual fuel).1 f lba data h,
    fun fuel f h => (inv_mutual fuel).2.1 f h,
    fun fuel f h => (inv_mutual fuel).2.2 f h,
    ?_⟩
  intro fuel f lba data hf hact hbound hoff hsz hsucc
  obtain ⟨hm, hfree, ha, ho, hn, ht, hl⟩ := invalidateOld_fields f lba
  have hstep : writeF (fuel + 1) f lba data =
      programCommit (f.invalidateOld lba) lba data := by
    have hd : ¬ data.size ≠ PageDataSize := by
      rw [hsz]
      exact fun hc => hc rfl
    have ha2 : ¬ (f.invalidateOld lba).currentActiveBlock = usizeMax := by
      rw [ha]
      exact hact
    simp only [writeF, if_neg hd, if_neg ha2]
  rw [hstep] at hsucc ⊢
  have hinv := inv_invalidateOld f lba hf
  have hres := programCommit_fullClose (f.invalidateOld lba) lba data
    hinv.1 (by rw [ha, ht]; exact hbound) (by rw [ho]; exact hoff) hsucc
  refine ⟨hres.1, ?_⟩
  rw [← ha]
  exact hres.2

set_option maxRecDepth 100000 in
/-- Witness for C10 at a concrete input: the freshly constructed one-block
FTL `tinyFtl` satisfies `FtlInv`, and a write through `writeF` preserves
it. -/
theorem frontier_invariant_witness :
    FtlInv tinyFtl ∧ FtlInv (writeF 16 tinyFtl 5 (payConst 0xAB)).2 :=
  ⟨by unfold FtlInv; decide, frontier_invariant.1 16 tinyFtl 5 (payConst 0xAB)
    (by unfold FtlInv; decide)⟩

end Aurelia
